import Mathlib

/-!
Shallow embedding of the virtual file-system engine of the File Manager
Emulator (`src/src/file_manager_emulator.cpp`, second revision, the one the
claims cite).  The tree is a value (`FsNode`); `unique_ptr` ownership becomes
plain containment, `std::unordered_map<std::string, unique_ptr<FsNode>>`
becomes an association list with unique keys (the code only ever inserts a
key after checking it is absent), and pointer-based in-place mutation becomes
rebuilding the tree along the path of the mutated node (`modifyAt`).  The
C++ functions that log an error and return `false`/`nullptr` are embedded as
`Except FmeError`-valued functions whose error constructor records which
error branch fired; every C++ error path returns before any mutation, so an
`.error` result always corresponds to an unchanged tree.

Path strings are processed through their character lists.  The C++ scans for
`'/'` with `find_first_of`, which yields exactly the decomposition computed
by `splitSeg` (segments between delimiters, with leading/trailing empties).
-/

namespace FME

/-- `FileManagerEmulator::NodeType`. -/
inductive NodeType where
  | Directory
  | File
  | Invalid
deriving DecidableEq, Repr

/-- `FileManagerEmulator::FsNode`: `name`, `isDirectory`, `children`
(child name ↦ owned child). -/
inductive FsNode where
  | mk (name : String) (isDirectory : Bool) (children : List (String × FsNode))
deriving Repr

def FsNode.name : FsNode → String
  | .mk n _ _ => n

def FsNode.isDirectory : FsNode → Bool
  | .mk _ d _ => d

def FsNode.children : FsNode → List (String × FsNode)
  | .mk _ _ cs => cs

/-- The error kinds distinguished by the code's error branches (each
corresponds to one family of logged messages / early `false` returns). -/
inductive FmeError where
  | notFound
  | notADirectory
  | invalidName
  | alreadyExists
  | selfContainment
  | rootTransfer
deriving DecidableEq, Repr

/-- `FileManagerEmulator::PathInfo`. -/
structure PathInfo where
  path : String
  basename : String
  type : NodeType
deriving DecidableEq, Repr

/-- `FileManagerEmulator::NodeTransferMode`. -/
inductive NodeTransferMode where
  | Copy
  | Move
deriving DecidableEq, Repr

/-! ### Association-list children operations (`std::unordered_map` with the
usage discipline of the code: keys are unique, `insert` is only called on an
absent key). -/

def lookupChild : List (String × FsNode) → String → Option FsNode
  | [], _ => none
  | (k, c) :: rest, key => if k == key then some c else lookupChild rest key

def containsChild (cs : List (String × FsNode)) (key : String) : Bool :=
  (lookupChild cs key).isSome

/-- `children.insert({key, v})`: a no-op when the key is present (map
semantics), otherwise the entry is added. -/
def insertChild (cs : List (String × FsNode)) (key : String) (v : FsNode) :
    List (String × FsNode) :=
  if containsChild cs key then cs else cs ++ [(key, v)]

/-- `children.erase(key)`. -/
def eraseChild : List (String × FsNode) → String → List (String × FsNode)
  | [], _ => []
  | (k, c) :: rest, key =>
      if k == key then eraseChild rest key else (k, c) :: eraseChild rest key

/-! ### Character-level path utilities -/

/-- `a` is an initial run of `b` (the embedding of `std::string::starts_with`
on character lists). -/
def charsLead : List Char → List Char → Bool
  | [], _ => true
  | _ :: _, [] => false
  | a :: as, b :: bs => a == b && charsLead as bs

/-- `a` is an initial run of `b`, for segment lists (used to speak about one
tree location lying inside another). -/
def leadsTo : List String → List String → Bool
  | [], _ => true
  | _ :: _, [] => false
  | a :: as, b :: bs => a == b && leadsTo as bs

/-- `isSpace` from `helpers.cpp` (`std::isspace` in the default locale). -/
def isSpaceChar (c : Char) : Bool :=
  c == ' ' || c == '\t' || c == '\n' || c == '\x0b' || c == '\x0c' || c == '\r'

/-- `trim` from `helpers.cpp`, on character lists. -/
def trimChars (l : List Char) : List Char :=
  ((l.dropWhile isSpaceChar).reverse.dropWhile isSpaceChar).reverse

/-- The segments of a path character list, split at every `'/'` (keeping
empty segments, as the C++ `find_first_of` scan does: `"" ↦ [[]]`,
`"/" ↦ [[], []]`, `"a/b" ↦ [[a], [b]]`). -/
def splitSeg : List Char → List (List Char)
  | [] => [[]]
  | c :: rest =>
      if c == '/' then [] :: splitSeg rest
      else
        match splitSeg rest with
        | [] => [[c]]
        | g :: gs => (c :: g) :: gs

/-- Rebuild a path string from its non-empty segments: one `'/'` before each
segment, plus an optional kept trailing delimiter.  This is the exact shape
the `normalizePath` loop produces (`result.append(pathDelimiter + nodeName)`
per surviving segment, `result.push_back(pathDelimiter)` when the final
segment vanished). -/
def joinSegs (ns : List (List Char)) (trailing : Bool) : List Char :=
  (ns.map (fun n => '/' :: n)).flatten ++ (if trailing then ['/'] else [])

/-- The surviving (trimmed, non-empty) segments used by `normalizePath`. -/
def normSegs (l : List Char) : List (List Char) :=
  ((splitSeg l).map trimChars).filter (fun s => !s.isEmpty)

/-- Whether `normalizePath` keeps a trailing delimiter: the final scanned
segment trims to empty (this also covers the empty input, which the C++
maps to `"/"`). -/
def normTrailing (l : List Char) : Bool :=
  (trimChars (((splitSeg l).getLast?).getD [])).isEmpty

/-- `FileManagerEmulator::normalizePath`. -/
def normalizePath (p : String) : String :=
  String.mk (joinSegs (normSegs p.data) (normTrailing p.data))

/-- `isFilename` (anonymous namespace): basename contains `'.'`. -/
def isFilename (base : List Char) : Bool :=
  base.contains '.'

/-- Reassemble a parent path from its segments: the root when there are
none, otherwise the delimiter-joined segments (this is the
`substr(0, pos)` / `"/"` split of the C++ scan, expressed on segments). -/
def pathRender (ps : List (List Char)) : String :=
  match ps with
  | [] => "/"
  | ps' => String.mk (joinSegs ps' false)

/-- `FileManagerEmulator::getNodePathInfo`, on the segment decomposition of
its (always already normalized) input: a normalized path has no empty
internal segments, so stripping one trailing delimiter and splitting at the
last remaining delimiter yields exactly (all-but-last segments,
last segment). -/
def getNodePathInfo (np : String) (requiredNodeType : NodeType) : PathInfo :=
  if np.data.isEmpty then
    { path := "/", basename := "", type := .Directory }
  else
    let trailing := np.data.getLast? == some '/'
    let segs := (splitSeg np.data).filter (fun s => !s.isEmpty)
    let path : String := pathRender segs.dropLast
    let base : List Char := (segs.getLast?).getD []
    if trailing && requiredNodeType == NodeType.File then
      { path := path, basename := String.mk (base ++ ['/']), type := .Invalid }
    else
      { path := path, basename := String.mk base,
        type := if isFilename base then .File else .Directory }

/-- The non-empty segments of a normalized path, as the `String` keys the
resolver looks up (`findNodeByPath` skips the empty segments). -/
def segsOf (p : String) : List String :=
  (((splitSeg p.data).filter (fun s => !s.isEmpty)).map String.mk)

/-- `FileManagerEmulator::getChildNode` (error messages dropped; the two
error branches become the two error kinds). -/
def getChildNode (n : FsNode) (childName : String) : Except FmeError FsNode :=
  if !n.isDirectory then .error .notADirectory
  else
    match lookupChild n.children childName with
    | some c => .ok c
    | none => .error .notFound

/-- The resolver loop of `findNodeByPath`: descend through the non-empty
segments via `getChildNode`. -/
def resolveSegs (n : FsNode) : List String → Except FmeError FsNode
  | [] => .ok n
  | s :: rest =>
      match getChildNode n s with
      | .error e => .error e
      | .ok c => resolveSegs c rest

/-- `FileManagerEmulator::findNodeByPath`: walk the non-empty segments; if
the path carried a trailing delimiter and the resolved node is not a
directory, the path is an invalid file reference. -/
def findNodeByPath (root : FsNode) (np : String) : Except FmeError FsNode :=
  match resolveSegs root (segsOf np) with
  | .error e => .error e
  | .ok n =>
      if np.data.getLast? == some '/' && !n.isDirectory then .error .invalidName
      else .ok n

/-- `FileManagerEmulator::isRootDirectory` (compares `path` against the root
node's stored name). -/
def isRootDirectoryFor (root : FsNode) (path basename : String) : Bool :=
  path == root.name && basename == ""

/-! ### Tree mutation along a resolved location

The C++ mutates through node pointers obtained by `findNodeByPath`; the
embedding rebuilds the tree along the same child-key path.  When the path
was successfully resolved, every step goes through an existing directory
child, so `modifyAt` edits exactly the node the pointer designated. -/

/-- Replace the child stored under key `s` by its image under `g`
(no change when the key is absent). -/
def mapChildAt (cs : List (String × FsNode)) (s : String) (g : FsNode → FsNode) :
    List (String × FsNode) :=
  cs.map (fun p => if p.1 == s then (p.1, g p.2) else p)

def modifyAt (t : FsNode) (loc : List String) (f : FsNode → FsNode) : FsNode :=
  match loc with
  | [] => f t
  | s :: rest =>
      match t with
      | .mk nm d cs => .mk nm d (mapChildAt cs s (fun c => modifyAt c rest f))

/-- Insert a child into the node at `loc` (`parent->children.insert`). -/
def insertIntoAt (t : FsNode) (loc : List String) (key : String) (v : FsNode) : FsNode :=
  modifyAt t loc (fun n => .mk n.name n.isDirectory (insertChild n.children key v))

/-- Erase a child of the node at `loc` (`parent->children.erase`). -/
def eraseAt (t : FsNode) (loc : List String) (key : String) : FsNode :=
  modifyAt t loc (fun n => .mk n.name n.isDirectory (eraseChild n.children key))

/-- The in-place rename `node->name = newName` performed after a move. -/
def renameNode : FsNode → String → FsNode
  | .mk _ d cs, newName => .mk newName d cs

mutual

/-- `FsNode::copy`: deep clone, optionally renaming the clone's root
(`newName = ""` keeps the original name, as the defaulted argument does). -/
def copyNode : FsNode → String → FsNode
  | .mk nm d cs, newName =>
      .mk (if newName.isEmpty then nm else newName) d (copyChildren cs)

/-- The loop of `FsNode::copy` over the children map (each child is cloned
with the defaulted empty new name, i.e. keeping its own name). -/
def copyChildren : List (String × FsNode) → List (String × FsNode)
  | [] => []
  | (k, c) :: rest => (k, copyNode c "") :: copyChildren rest

end

/-! ### Creation (`md` / `mf`) and removal (`rm`) -/

/-- `FileManagerEmulator::validateNodeCreation`.  On success the C++ returns
the parent pointer; the embedding returns the parent node (the caller
mutates it through `insertIntoAt` at the parent path's segments). -/
def validateNodeCreation (root : FsNode) (requiredNodeType : NodeType)
    (pathInfo : PathInfo) (ignoreIfAlreadyExist : Bool) : Except FmeError FsNode :=
  if requiredNodeType == NodeType.File && pathInfo.type == NodeType.Invalid then
    .error .invalidName
  else
    match findNodeByPath root pathInfo.path with
    | .error e => .error e
    | .ok parent =>
        if !parent.isDirectory then .error .notADirectory
        else if containsChild parent.children pathInfo.basename && !ignoreIfAlreadyExist then
          .error .alreadyExists
        else .ok parent

/-- `FileManagerEmulator::md`. -/
def md (root : FsNode) (dirAbsolutePath : String) : Except FmeError FsNode :=
  let normalizedDirPath := normalizePath dirAbsolutePath
  let nodePathInfo := getNodePathInfo normalizedDirPath NodeType.Directory
  match validateNodeCreation root NodeType.Directory nodePathInfo false with
  | .error e => .error e
  | .ok _ =>
      .ok (insertIntoAt root (segsOf nodePathInfo.path) nodePathInfo.basename
        (.mk nodePathInfo.basename true []))

/-- `FileManagerEmulator::mf`. -/
def mf (root : FsNode) (fileAbsolutePath : String) : Except FmeError FsNode :=
  let normalizedFilePath := normalizePath fileAbsolutePath
  let nodePathInfo := getNodePathInfo normalizedFilePath NodeType.File
  match validateNodeCreation root NodeType.File nodePathInfo true with
  | .error e => .error e
  | .ok parent =>
      if containsChild parent.children nodePathInfo.basename then .ok root
      else
        .ok (insertIntoAt root (segsOf nodePathInfo.path) nodePathInfo.basename
          (.mk nodePathInfo.basename false []))

/-- `FileManagerEmulator::rm`. -/
def rm (root : FsNode) (absolutePath : String) : Except FmeError FsNode :=
  let normalizedPath := normalizePath absolutePath
  let nodePathInfo := getNodePathInfo normalizedPath NodeType.Invalid
  match findNodeByPath root nodePathInfo.path with
  | .error e => .error e
  | .ok parent =>
      if containsChild parent.children nodePathInfo.basename then
        .ok (eraseAt root (segsOf nodePathInfo.path) nodePathInfo.basename)
      else .error .notFound

/-! ### The transfer engine (`cp` / `mv`) -/

/-- `FileManagerEmulator::transferNode`.  `parentS`/`parentD` are the nodes
the C++ receives as pointers; `locS`/`locD` are their locations in `root`
(the embedding of what those pointers point into).  For a move, the C++
moves the owned child out of `parentS`, inserts it under
`nameAfterTransfer`, updates the stored `name`, and erases the emptied
source entry; here that is insertion of the (renamed) subtree at `locD`
followed by erasure at `locS`. -/
def transferNode (root : FsNode) (parentS : FsNode) (locS : List String)
    (parentD : FsNode) (locD : List String) (basenameS basenameD : String)
    (ignoreIfAlreadyExist : Bool) (transferMode : NodeTransferMode) :
    Except FmeError FsNode :=
  let nameAfterTransfer := if basenameD.isEmpty then basenameS else basenameD
  if !parentD.isDirectory then .error .notADirectory
  else if !containsChild parentD.children nameAfterTransfer then
    match lookupChild parentS.children basenameS with
    | none => .error .notFound
    | some srcNode =>
        match transferMode with
        | .Move =>
            .ok (eraseAt
              (insertIntoAt root locD nameAfterTransfer (renameNode srcNode nameAfterTransfer))
              locS basenameS)
        | .Copy =>
            .ok (insertIntoAt root locD nameAfterTransfer (copyNode srcNode nameAfterTransfer))
  else if ignoreIfAlreadyExist then .ok root
  else .error .alreadyExists

/-- `FileManagerEmulator::validateAndTransferNode`. -/
def validateAndTransferNode (root : FsNode) (s d : String)
    (transferMode : NodeTransferMode) : Except FmeError FsNode :=
  let source := normalizePath s
  let destination := normalizePath d
  let infoS := getNodePathInfo source NodeType.Invalid
  let infoD := getNodePathInfo destination NodeType.Invalid
  let destinationIsRoot := isRootDirectoryFor root infoD.path infoD.basename
  let newBasenameD := if destinationIsRoot then infoS.basename else infoD.basename
  if isRootDirectoryFor root infoS.path infoS.basename then
    .error .rootTransfer
  else if (infoS.path == infoD.path && infoS.basename == infoD.basename)
      || (infoS.path == "/" && destinationIsRoot) then
    .ok root
  else if charsLead (source.data ++ ['/']) destination.data then
    .error .selfContainment
  else
    match findNodeByPath root infoS.path with
    | .error e => .error e
    | .ok parentS =>
        if !containsChild parentS.children infoS.basename then .error .notFound
        else
          match findNodeByPath root infoD.path with
          | .error e => .error e
          | .ok parentD =>
              if infoS.path == infoD.path && infoS.basename == newBasenameD then .ok root
              else if !parentD.isDirectory then .error .notADirectory
              else
                let sourceIsDir :=
                  match lookupChild parentS.children infoS.basename with
                  | some c => c.isDirectory
                  | none => false
                if !sourceIsDir && source.data.getLast? == some '/' then
                  .error .invalidName
                else
                  let ignoreIfAlreadyExist := !sourceIsDir
                  if containsChild parentD.children newBasenameD && !destinationIsRoot then
                    match lookupChild parentD.children newBasenameD with
                    | none => .error .notFound
                    | some retargetD =>
                        transferNode root parentS (segsOf infoS.path) retargetD
                          (segsOf infoD.path ++ [newBasenameD]) infoS.basename ""
                          ignoreIfAlreadyExist transferMode
                  else
                    if !sourceIsDir && destination.data.getLast? == some '/'
                        && !destinationIsRoot then
                      .error .invalidName
                    else
                      transferNode root parentS (segsOf infoS.path) parentD
                        (segsOf infoD.path) infoS.basename newBasenameD
                        ignoreIfAlreadyExist transferMode

/-- `FileManagerEmulator::cp`. -/
def cp (root : FsNode) (source destination : String) : Except FmeError FsNode :=
  validateAndTransferNode root source destination .Copy

/-- `FileManagerEmulator::mv`. -/
def mv (root : FsNode) (source destination : String) : Except FmeError FsNode :=
  validateAndTransferNode root source destination .Move

/-! ### The run loop -/

/-- A parsed command with the arity its `CommandName` requires (the run loop
rejects other arities before touching the tree). -/
inductive Cmd where
  | cp (source destination : String)
  | md (path : String)
  | mf (path : String)
  | mv (source destination : String)
  | rm (path : String)
deriving Repr

/-- `FileManagerEmulator::executeCommand`. -/
def execCmd (t : FsNode) : Cmd → Except FmeError FsNode
  | .cp s d => cp t s d
  | .md p => md t p
  | .mf p => mf t p
  | .mv s d => mv t s d
  | .rm p => rm t p

/-- The command loop of `FileManagerEmulator::run`: commands are applied in
order; the first failing command aborts the run (`LogicError`), already
applied mutations are kept, and the final tree is the one printed by
`printResultTree` in both the success and the abort case.  Returns the
final tree and whether the run completed without error. -/
def runCmds (t : FsNode) : List Cmd → FsNode × Bool
  | [] => (t, true)
  | c :: rest =>
      match execCmd t c with
      | .error _ => (t, false)
      | .ok t1 => runCmds t1 rest

/-- The longest error-free prefix of a command sequence (specification-side
notion for claim C6). -/
def okPrefix (t : FsNode) : List Cmd → List Cmd
  | [] => []
  | c :: rest =>
      match execCmd t c with
      | .error _ => []
      | .ok t1 => c :: okPrefix t1 rest

/-- Apply a command sequence, keeping the tree of the last successful
command (specification-side notion for claim C6). -/
def applyCmds (t : FsNode) : List Cmd → FsNode
  | [] => t
  | c :: rest =>
      match execCmd t c with
      | .error _ => t
      | .ok t1 => applyCmds t1 rest

/-! ### Well-formedness: each children entry's key is the `name` stored in
the child it owns (claim C10's invariant). -/

mutual

def nodeWF : FsNode → Bool
  | .mk _ _ cs => childrenWF cs

def childrenWF : List (String × FsNode) → Bool
  | [] => true
  | (k, c) :: rest => k == c.name && nodeWF c && childrenWF rest

end

/-! ## Lemma kit -/

@[simp] theorem FsNode.name_mk (n : String) (d : Bool) (cs : List (String × FsNode)) :
    (FsNode.mk n d cs).name = n := rfl

@[simp] theorem FsNode.isDirectory_mk (n : String) (d : Bool) (cs : List (String × FsNode)) :
    (FsNode.mk n d cs).isDirectory = d := rfl

@[simp] theorem FsNode.children_mk (n : String) (d : Bool) (cs : List (String × FsNode)) :
    (FsNode.mk n d cs).children = cs := rfl

theorem FsNode.eta (n : FsNode) : FsNode.mk n.name n.isDirectory n.children = n := by
  cases n <;> rfl

/-! ### Children association-list lemmas -/

theorem lookupChild_append (cs ds : List (String × FsNode)) (k : String) :
    lookupChild (cs ++ ds) k
      = match lookupChild cs k with
        | some c => some c
        | none => lookupChild ds k := by
  induction cs with
  | nil => simp [lookupChild]
  | cons p rest ih =>
      obtain ⟨k0, c0⟩ := p
      simp only [List.cons_append, lookupChild]
      cases h : (k0 == k) <;> simp [h, ih]

theorem lookupChild_insert_self (cs : List (String × FsNode)) (k : String) (v : FsNode)
    (h : containsChild cs k = false) : lookupChild (insertChild cs k v) k = some v := by
  have hl : lookupChild cs k = none := by
    cases hx : lookupChild cs k with
    | none => rfl
    | some c => simp [containsChild, hx] at h
  rw [insertChild, h]
  simp only [Bool.false_eq_true, if_false]
  rw [lookupChild_append, hl]
  simp [lookupChild]

theorem lookupChild_insert_ne (cs : List (String × FsNode)) (k k' : String) (v : FsNode)
    (h : k' ≠ k) : lookupChild (insertChild cs k v) k' = lookupChild cs k' := by
  rw [insertChild]
  cases hc : containsChild cs k with
  | true => simp
  | false =>
      simp only [Bool.false_eq_true, if_false]
      rw [lookupChild_append]
      cases hx : lookupChild cs k' with
      | some c => simp
      | none => simp [lookupChild, show (k == k') = false from by simpa using Ne.symm h]

theorem containsChild_insert_self (cs : List (String × FsNode)) (k : String) (v : FsNode) :
    containsChild (insertChild cs k v) k = true := by
  cases hc : containsChild cs k with
  | true => rw [insertChild, hc]; simpa
  | false => simp [containsChild, lookupChild_insert_self cs k v hc]

theorem lookupChild_mapChildAt_self (cs : List (String × FsNode)) (s : String)
    (g : FsNode → FsNode) :
    lookupChild (mapChildAt cs s g) s = (lookupChild cs s).map g := by
  induction cs with
  | nil => simp [mapChildAt, lookupChild]
  | cons p rest ih =>
      obtain ⟨k0, c0⟩ := p
      simp only [mapChildAt, List.map_cons] at ih ⊢
      cases h : (k0 == s) with
      | true =>
          have hk : k0 = s := by simpa using h
          simp [lookupChild, h, hk]
      | false => simpa [lookupChild, h] using ih

theorem lookupChild_mapChildAt_ne (cs : List (String × FsNode)) (s k : String)
    (g : FsNode → FsNode) (h : k ≠ s) :
    lookupChild (mapChildAt cs s g) k = lookupChild cs k := by
  induction cs with
  | nil => simp [mapChildAt, lookupChild]
  | cons p rest ih =>
      obtain ⟨k0, c0⟩ := p
      simp only [mapChildAt, List.map_cons] at ih ⊢
      cases h0 : (k0 == s) with
      | true =>
          have hk : k0 = s := by simpa using h0
          have hkk : (k0 == k) = false := by simp [hk]; exact fun hx => h hx.symm
          simpa [lookupChild, h0, hkk] using ih
      | false =>
          cases h1 : (k0 == k) <;> simpa [lookupChild, h0, h1] using ih

/-! ### `leadsTo` (initial-run) lemmas -/

theorem leadsTo_iff (a b : List String) :
    leadsTo a b = true ↔ ∃ suffix, b = a ++ suffix := by
  induction a generalizing b with
  | nil => simp [leadsTo]
  | cons x xs ih =>
      cases b with
      | nil =>
          simp only [leadsTo]
          constructor
          · intro h; cases h
          · rintro ⟨suffix, hsuf⟩; cases hsuf
      | cons y ys =>
          simp only [leadsTo, Bool.and_eq_true, beq_iff_eq, ih]
          constructor
          · rintro ⟨rfl, suffix, rfl⟩; exact ⟨suffix, rfl⟩
          · rintro ⟨suffix, hsuf⟩
            obtain ⟨rfl, rfl⟩ : x = y ∧ ys = xs ++ suffix := by
              constructor <;> simp_all
            exact ⟨rfl, suffix, rfl⟩

theorem leadsTo_refl (a : List String) : leadsTo a a = true := by
  rw [leadsTo_iff]; exact ⟨[], by simp⟩

/-! ### Resolution / modification lemmas -/

theorem resolveSegs_append (t : FsNode) (l1 l2 : List String) :
    resolveSegs t (l1 ++ l2)
      = match resolveSegs t l1 with
        | .error e => .error e
        | .ok n => resolveSegs n l2 := by
  induction l1 generalizing t with
  | nil => simp [resolveSegs]
  | cons s rest ih =>
      simp only [List.cons_append, resolveSegs]
      cases hg : getChildNode t s with
      | error e => simp
      | ok c => simpa using ih c

theorem resolveSegs_modifyAt_self (t : FsNode) (loc : List String)
    (f : FsNode → FsNode) (n : FsNode) (h : resolveSegs t loc = .ok n) :
    resolveSegs (modifyAt t loc f) loc = .ok (f n) := by
  induction loc generalizing t with
  | nil =>
      simp only [resolveSegs] at h ⊢
      cases h
      simp [modifyAt]
  | cons s rest ih =>
      obtain ⟨nm, d, cs⟩ := t
      cases d with
      | false => simp [resolveSegs, getChildNode] at h
      | true =>
          cases hl : lookupChild cs s with
          | none => simp [resolveSegs, getChildNode, hl] at h
          | some c =>
              have h' : resolveSegs c rest = .ok n := by
                simpa [resolveSegs, getChildNode, hl] using h
              simp [modifyAt, resolveSegs, getChildNode,
                lookupChild_mapChildAt_self, hl, ih c h']

theorem resolveSegs_modifyAt_diverge (t : FsNode) (loc loc' : List String)
    (f : FsNode → FsNode) (h1 : leadsTo loc loc' = false)
    (h2 : leadsTo loc' loc = false) :
    resolveSegs (modifyAt t loc f) loc' = resolveSegs t loc' := by
  induction loc generalizing t loc' with
  | nil => simp [leadsTo] at h1
  | cons s rest ih =>
      cases loc' with
      | nil => simp [leadsTo] at h2
      | cons s' rest' =>
          obtain ⟨nm, d, cs⟩ := t
          by_cases hs : s' = s
          · subst hs
            have h1' : leadsTo rest rest' = false := by
              simpa [leadsTo] using h1
            have h2' : leadsTo rest' rest = false := by
              simpa [leadsTo] using h2
            simp only [modifyAt, resolveSegs, getChildNode, FsNode.isDirectory_mk,
              FsNode.children_mk, lookupChild_mapChildAt_self]
            cases hl : lookupChild cs s' <;> by_cases hd : d <;>
              simp [hd, hl, ih _ _ h1' h2']
          · simp only [modifyAt, resolveSegs, getChildNode, FsNode.isDirectory_mk,
              FsNode.children_mk, lookupChild_mapChildAt_ne cs s s' _ hs]

theorem resolveSegs_insertIntoAt_through (t : FsNode) (loc : List String)
    (k k' : String) (v : FsNode) (rest : List String) (h : k' ≠ k) :
    resolveSegs (insertIntoAt t loc k v) (loc ++ k' :: rest)
      = resolveSegs t (loc ++ k' :: rest) := by
  induction loc generalizing t with
  | nil =>
      obtain ⟨nm, d, cs⟩ := t
      simp only [insertIntoAt, modifyAt, List.nil_append, resolveSegs, getChildNode,
        FsNode.isDirectory_mk, FsNode.children_mk, lookupChild_insert_ne cs k k' v h]
  | cons s locRest ih =>
      obtain ⟨nm, d, cs⟩ := t
      simp only [insertIntoAt] at ih
      simp only [insertIntoAt, modifyAt, List.cons_append, resolveSegs, getChildNode,
        FsNode.isDirectory_mk, FsNode.children_mk, lookupChild_mapChildAt_self]
      cases hl : lookupChild cs s <;> by_cases hd : d <;>
        simp [hd, hl, ih]

theorem modifyAt_name (t : FsNode) (loc : List String) (f : FsNode → FsNode)
    (h : ∀ n, (f n).name = n.name) : (modifyAt t loc f).name = t.name := by
  cases loc with
  | nil => simpa [modifyAt] using h t
  | cons s rest => obtain ⟨nm, d, cs⟩ := t; simp [modifyAt]

theorem modifyAt_isDirectory (t : FsNode) (loc : List String) (f : FsNode → FsNode)
    (h : ∀ n, (f n).isDirectory = n.isDirectory) :
    (modifyAt t loc f).isDirectory = t.isDirectory := by
  cases loc with
  | nil => simpa [modifyAt] using h t
  | cons s rest => obtain ⟨nm, d, cs⟩ := t; simp [modifyAt]

/-! ### Well-formedness lemmas -/

theorem nodeWF_def (n : FsNode) : nodeWF n = childrenWF n.children := by
  cases n; rfl

theorem childrenWF_cons (k : String) (c : FsNode) (rest : List (String × FsNode)) :
    childrenWF ((k, c) :: rest) = (k == c.name && nodeWF c && childrenWF rest) := by
  rfl

theorem childrenWF_append (cs ds : List (String × FsNode)) :
    childrenWF (cs ++ ds) = (childrenWF cs && childrenWF ds) := by
  induction cs with
  | nil => simp [childrenWF]
  | cons p rest ih =>
      obtain ⟨k, c⟩ := p
      simp [childrenWF_cons, ih, Bool.and_assoc]

theorem childrenWF_lookup (cs : List (String × FsNode)) (k : String) (c : FsNode)
    (h : childrenWF cs = true) (hl : lookupChild cs k = some c) :
    c.name = k ∧ nodeWF c = true := by
  induction cs with
  | nil => simp [lookupChild] at hl
  | cons p rest ih =>
      obtain ⟨k0, c0⟩ := p
      rw [childrenWF_cons] at h
      simp only [Bool.and_eq_true, beq_iff_eq] at h
      obtain ⟨⟨hk0, hc0⟩, hrest⟩ := h
      simp only [lookupChild] at hl
      cases hq : (k0 == k) with
      | true =>
          rw [hq] at hl
          simp only [if_pos rfl] at hl
          cases hl
          exact ⟨by simp_all, hc0⟩
      | false =>
          rw [hq] at hl
          simp only [Bool.false_eq_true, if_false] at hl
          exact ih hrest hl

theorem childrenWF_insert (cs : List (String × FsNode)) (k : String) (v : FsNode)
    (h : childrenWF cs = true) (hv : v.name = k) (hwf : nodeWF v = true) :
    childrenWF (insertChild cs k v) = true := by
  rw [insertChild]
  cases hc : containsChild cs k with
  | true => simpa
  | false =>
      simp only [Bool.false_eq_true, if_false, childrenWF_append]
      simp [h, childrenWF_cons, childrenWF, hv, hwf]

theorem childrenWF_erase (cs : List (String × FsNode)) (k : String)
    (h : childrenWF cs = true) : childrenWF (eraseChild cs k) = true := by
  induction cs with
  | nil => simpa [eraseChild] using h
  | cons p rest ih =>
      obtain ⟨k0, c0⟩ := p
      rw [childrenWF_cons] at h
      simp only [Bool.and_eq_true] at h
      obtain ⟨⟨hk0, hc0⟩, hrest⟩ := h
      rw [eraseChild]
      cases hq : (k0 == k) with
      | true => simpa using ih hrest
      | false =>
          simp only [Bool.false_eq_true, if_false, childrenWF_cons]
          simp [hk0, hc0, ih hrest]

theorem mapChildAt_cons (k0 : String) (c0 : FsNode) (rest : List (String × FsNode))
    (s : String) (g : FsNode → FsNode) :
    mapChildAt ((k0, c0) :: rest) s g
      = (if (k0 == s) = true then (k0, g c0) else (k0, c0)) :: mapChildAt rest s g := rfl

theorem childrenWF_mapChildAt (cs : List (String × FsNode)) (s : String)
    (g : FsNode → FsNode) (h : childrenWF cs = true)
    (hg : ∀ c, nodeWF c = true → (g c).name = c.name ∧ nodeWF (g c) = true) :
    childrenWF (mapChildAt cs s g) = true := by
  induction cs with
  | nil => simpa [mapChildAt] using h
  | cons p rest ih =>
      obtain ⟨k0, c0⟩ := p
      rw [childrenWF_cons] at h
      simp only [Bool.and_eq_true, beq_iff_eq] at h
      obtain ⟨⟨hk0, hc0⟩, hrest⟩ := h
      rw [mapChildAt_cons]
      cases hq : (k0 == s) with
      | true =>
          obtain ⟨hn, hw⟩ := hg c0 hc0
          rw [if_pos rfl, childrenWF_cons]
          simp [hn, hk0, hw, ih hrest]
      | false =>
          simp only [Bool.false_eq_true, if_false, childrenWF_cons]
          simp [hk0, hc0, ih hrest]

theorem nodeWF_modifyAt (loc : List String) (f : FsNode → FsNode)
    (hf : ∀ n, nodeWF n = true → (f n).name = n.name ∧ nodeWF (f n) = true) :
    ∀ t : FsNode, nodeWF t = true →
      (modifyAt t loc f).name = t.name ∧ nodeWF (modifyAt t loc f) = true := by
  induction loc with
  | nil => intro t ht; simpa [modifyAt] using hf t ht
  | cons s rest ih =>
      intro t ht
      obtain ⟨nm, d, cs⟩ := t
      rw [nodeWF_def] at ht
      simp only [FsNode.children_mk] at ht
      constructor
      · simp [modifyAt]
      · rw [modifyAt, nodeWF_def]
        simp only [FsNode.children_mk]
        exact childrenWF_mapChildAt cs s _ ht (fun c hc => ih c hc)

theorem nodeWF_getChild (t : FsNode) (s : String) (c : FsNode)
    (h : nodeWF t = true) (hg : getChildNode t s = .ok c) :
    c.name = s ∧ nodeWF c = true := by
  rw [getChildNode] at hg
  cases hd : t.isDirectory with
  | false => rw [hd] at hg; simp at hg
  | true =>
      rw [hd] at hg
      simp only [Bool.not_true, Bool.false_eq_true, if_false] at hg
      cases hl : lookupChild t.children s with
      | none => rw [hl] at hg; cases hg
      | some c0 =>
          rw [hl] at hg
          cases hg
          exact childrenWF_lookup t.children s _ (by rw [← nodeWF_def]; exact h) hl

theorem nodeWF_resolve (segs : List String) :
    ∀ (t n : FsNode), nodeWF t = true → resolveSegs t segs = .ok n →
      nodeWF n = true := by
  induction segs with
  | nil => intro t n ht h; rw [resolveSegs] at h; cases h; exact ht
  | cons s rest ih =>
      intro t n ht h
      rw [resolveSegs] at h
      cases hg : getChildNode t s with
      | error e => rw [hg] at h; cases h
      | ok c =>
          rw [hg] at h
          exact ih c n (nodeWF_getChild t s c ht hg).2 h

/-! ### Deep-copy lemmas -/

theorem copyChildren_congr (cs : List (String × FsNode))
    (h : ∀ k c, (k, c) ∈ cs → copyNode c "" = c) : copyChildren cs = cs := by
  induction cs with
  | nil => rfl
  | cons p rest ih =>
      obtain ⟨k, c⟩ := p
      rw [copyChildren, h k c (by simp), ih (fun k' c' hm => h k' c' (by simp [hm]))]

theorem copyNode_keep (n : FsNode) : copyNode n "" = n := by
  suffices h : ∀ (k : Nat) (m : FsNode), sizeOf m ≤ k → copyNode m "" = m from
    h (sizeOf n) n le_rfl
  intro k
  induction k with
  | zero =>
      intro m hm
      obtain ⟨nm, d, cs⟩ := m
      simp at hm
  | succ k ih =>
      intro m hm
      obtain ⟨nm, d, cs⟩ := m
      have hcc : copyChildren cs = cs := by
        apply copyChildren_congr
        intro k' c hm'
        apply ih
        have h1 := List.sizeOf_lt_of_mem hm'
        have h2 : sizeOf (FsNode.mk nm d cs) ≤ k + 1 := hm
        simp [FsNode.mk.sizeOf_spec] at h2
        simp [Prod.mk.sizeOf_spec] at h1
        omega
      rw [copyNode, hcc]
      have hb : ("" : String).isEmpty = true := rfl
      rw [hb]
      simp

theorem copyNode_eq (n : FsNode) (s : String) :
    copyNode n s = FsNode.mk (if s.isEmpty then n.name else s) n.isDirectory n.children := by
  obtain ⟨nm, d, cs⟩ := n
  rw [copyNode, copyChildren_congr cs (fun k c _ => copyNode_keep c)]
  simp

/-! ### Path-string normalization lemmas -/

theorem charsLead_iff (a b : List Char) :
    charsLead a b = true ↔ ∃ suffix, b = a ++ suffix := by
  induction a generalizing b with
  | nil => simp [charsLead]
  | cons x xs ih =>
      cases b with
      | nil =>
          simp only [charsLead]
          constructor
          · intro h; cases h
          · rintro ⟨suffix, hsuf⟩; cases hsuf
      | cons y ys =>
          simp only [charsLead, Bool.and_eq_true, beq_iff_eq, ih]
          constructor
          · rintro ⟨rfl, suffix, rfl⟩; exact ⟨suffix, rfl⟩
          · rintro ⟨suffix, hsuf⟩
            obtain ⟨rfl, rfl⟩ : x = y ∧ ys = xs ++ suffix := by
              constructor <;> simp_all
            exact ⟨rfl, suffix, rfl⟩

theorem splitSeg_ne_nil (l : List Char) : splitSeg l ≠ [] := by
  induction l with
  | nil => simp [splitSeg]
  | cons c rest ih =>
      rw [splitSeg]
      cases hq : (c == '/') with
      | true => simp
      | false =>
          simp only [Bool.false_eq_true, if_false]
          cases hs : splitSeg rest <;> simp

theorem splitSeg_parts (l : List Char) : ∀ g ∈ splitSeg l, '/' ∉ g := by
  induction l with
  | nil => intro g hg; simp [splitSeg] at hg; simp [hg]
  | cons c rest ih =>
      intro g hg
      rw [splitSeg] at hg
      split at hg
      · rcases List.mem_cons.mp hg with rfl | hgm
        · simp
        · exact ih g hgm
      next hc =>
        split at hg
        next hs => exact absurd hs (splitSeg_ne_nil rest)
        next g0 gs hs =>
          rcases List.mem_cons.mp hg with rfl | hgm
          · intro hmem
            rcases List.mem_cons.mp hmem with h1 | h1
            · exact hc (by simp [h1.symm])
            · exact ih g0 (by rw [hs]; exact List.mem_cons_self g0 gs) h1
          · exact ih g (by rw [hs]; exact List.mem_cons_of_mem g0 hgm)

theorem trimChars_subset (l : List Char) : ∀ x ∈ trimChars l, x ∈ l := by
  intro x hx
  unfold trimChars at hx
  rw [List.mem_reverse] at hx
  have h1 := (List.dropWhile_sublist (l := (l.dropWhile isSpaceChar).reverse)
    (p := isSpaceChar)).subset hx
  rw [List.mem_reverse] at h1
  exact (List.dropWhile_sublist (p := isSpaceChar)).subset h1

theorem normSegs_good (l : List Char) : ∀ n ∈ normSegs l, n ≠ [] ∧ '/' ∉ n := by
  intro n hn
  unfold normSegs at hn
  rw [List.mem_filter] at hn
  obtain ⟨hmem, hne⟩ := hn
  rw [List.mem_map] at hmem
  obtain ⟨g, hg, rfl⟩ := hmem
  refine ⟨by simpa using hne, fun hmm => ?_⟩
  exact splitSeg_parts l g hg (trimChars_subset g _ hmm)

theorem splitSeg_push (xs ys : List Char) (h : '/' ∉ xs) :
    splitSeg (xs ++ ys) = (splitSeg ys).modifyHead (fun g => xs ++ g) := by
  induction xs with
  | nil =>
      obtain ⟨g0, gs, hs⟩ := List.exists_cons_of_ne_nil (splitSeg_ne_nil ys)
      simp [hs]
  | cons c xs' ih =>
      have hc : (c == '/') = false := by
        simp only [List.mem_cons] at h
        simp only [beq_eq_false_iff_ne, ne_eq]
        intro hcc; exact h (Or.inl hcc.symm)
      have hxs : '/' ∉ xs' := fun hmm => h (List.mem_cons_of_mem c hmm)
      rw [List.cons_append, splitSeg, hc]
      simp only [Bool.false_eq_true, if_false]
      rw [ih hxs]
      obtain ⟨g0, gs, hs⟩ := List.exists_cons_of_ne_nil (splitSeg_ne_nil ys)
      simp [hs]

theorem splitSeg_join (ns : List (List Char)) (tr : Bool)
    (h : ∀ n ∈ ns, n ≠ [] ∧ '/' ∉ n) :
    splitSeg (joinSegs ns tr) = [] :: (ns ++ if tr then [[]] else []) := by
  induction ns with
  | nil =>
      cases tr with
      | true => rfl
      | false => rfl
  | cons n ns' ih =>
      have hgood := h n (List.mem_cons_self n ns')
      have hrest : ∀ m ∈ ns', m ≠ [] ∧ '/' ∉ m :=
        fun m hm => h m (List.mem_cons_of_mem n hm)
      have hjoin : joinSegs (n :: ns') tr = '/' :: (n ++ joinSegs ns' tr) := by
        simp [joinSegs, List.flatten_cons, List.append_assoc]
      have hstep : ∀ x : List Char, splitSeg ('/' :: x) = [] :: splitSeg x := by
        intro x; rw [splitSeg]; simp
      rw [hjoin, hstep, splitSeg_push n _ hgood.2, ih hrest]
      simp

theorem filter_splitSeg_join (ns : List (List Char)) (tr : Bool)
    (h : ∀ n ∈ ns, n ≠ [] ∧ '/' ∉ n) :
    (splitSeg (joinSegs ns tr)).filter (fun s => !s.isEmpty) = ns := by
  rw [splitSeg_join ns tr h]
  rw [List.filter_cons]
  simp only [List.isEmpty_nil, Bool.not_true, Bool.false_eq_true, if_false]
  rw [List.filter_append]
  have h1 : ns.filter (fun s => !s.isEmpty) = ns := by
    apply List.filter_eq_self.mpr
    intro a ha
    simpa using (h a ha).1
  have h2 : (if tr then [([] : List Char)] else []).filter (fun s => !s.isEmpty) = [] := by
    cases tr <;> simp
  rw [h1, h2, List.append_nil]

theorem normalizePath_data (s : String) :
    (normalizePath s).data = joinSegs (normSegs s.data) (normTrailing s.data) := rfl

theorem normSegs_nil_trailing (l : List Char) (h : normSegs l = []) :
    normTrailing l = true := by
  unfold normSegs at h
  unfold normTrailing
  have hall := List.filter_eq_nil_iff.mp h
  cases hlast : (splitSeg l).getLast? with
  | none =>
      exact absurd (List.getLast?_eq_none_iff.mp hlast) (splitSeg_ne_nil l)
  | some g =>
      have hmem : g ∈ splitSeg l := by
        obtain ⟨hne2, heq⟩ :=
          List.mem_getLast?_eq_getLast (l := splitSeg l) (x := g)
            (Option.mem_def.mpr hlast)
        rw [heq]
        exact List.getLast_mem hne2
      have := hall (trimChars g) (List.mem_map_of_mem trimChars hmem)
      simpa using this

theorem normalizePath_data_ne_nil (s : String) : (normalizePath s).data ≠ [] := by
  rw [normalizePath_data]
  cases hns : normSegs s.data with
  | nil => rw [normSegs_nil_trailing s.data hns]; simp [joinSegs]
  | cons n ns' => simp [joinSegs]

theorem joinSegs_length (ns : List (List Char)) (tr : Bool) :
    (joinSegs ns tr).length
      = ((ns.map List.length).sum + ns.length) + (if tr then 1 else 0) := by
  induction ns with
  | nil => cases tr <;> simp [joinSegs]
  | cons n ns' ih =>
      have hjoin : joinSegs (n :: ns') tr = '/' :: (n ++ joinSegs ns' tr) := by
        simp [joinSegs]
      rw [hjoin]
      simp only [List.length_cons, List.length_append, ih, List.map_cons, List.sum_cons]
      omega

theorem joinSegs_length_true (ns : List (List Char)) :
    (joinSegs ns true).length = (ns.map List.length).sum + ns.length + 1 := by
  rw [joinSegs_length]; rfl

theorem joinSegs_length_false (ns : List (List Char)) :
    (joinSegs ns false).length = (ns.map List.length).sum + ns.length := by
  rw [joinSegs_length]; simp

theorem joinSegs_inj (ns ms : List (List Char))
    (hns : ∀ n ∈ ns, n ≠ [] ∧ '/' ∉ n) (hms : ∀ n ∈ ms, n ≠ [] ∧ '/' ∉ n)
    (h : joinSegs ns false = joinSegs ms false) : ns = ms := by
  have h1 := splitSeg_join ns false hns
  have h2 := splitSeg_join ms false hms
  rw [h] at h1
  rw [h1] at h2
  simpa using h2

theorem segsOf_norm (s : String) :
    segsOf (normalizePath s) = (normSegs s.data).map String.mk := by
  unfold segsOf
  rw [normalizePath_data,
    filter_splitSeg_join (normSegs s.data) (normTrailing s.data) (normSegs_good s.data)]

theorem getNodePathInfo_norm_inv (s : String) :
    getNodePathInfo (normalizePath s) NodeType.Invalid
      = { path := pathRender (normSegs s.data).dropLast,
          basename := String.mk (((normSegs s.data).getLast?).getD []),
          type := if isFilename (((normSegs s.data).getLast?).getD [])
                  then .File else .Directory } := by
  unfold getNodePathInfo
  have hne : (normalizePath s).data.isEmpty = false := by
    cases hd : (normalizePath s).data with
    | nil => exact absurd hd (normalizePath_data_ne_nil s)
    | cons c l => simp
  rw [hne]
  simp only [Bool.false_eq_true, if_false]
  have hseg : ((splitSeg (normalizePath s).data).filter (fun s => !s.isEmpty))
      = normSegs s.data := by
    rw [normalizePath_data,
      filter_splitSeg_join (normSegs s.data) (normTrailing s.data) (normSegs_good s.data)]
  rw [hseg]
  have hreq : (((normalizePath s).data.getLast? == some '/')
      && (NodeType.Invalid == NodeType.File)) = false := by
    simp
  rw [hreq]
  simp only [Bool.false_eq_true, if_false]

/-! ### `findNodeByPath` and `validateNodeCreation` extraction lemmas -/

theorem findNodeByPath_ok (root : FsNode) (p : String) (n : FsNode)
    (h : findNodeByPath root p = .ok n) :
    resolveSegs root (segsOf p) = .ok n ∧
      ((p.data.getLast? == some '/') = true → n.isDirectory = true) := by
  rw [findNodeByPath] at h
  split at h
  · cases h
  next m heq =>
    split at h
    · cases h
    next hcond =>
      cases h
      refine ⟨heq, fun hq => ?_⟩
      cases hd : n.isDirectory with
      | true => rfl
      | false => exact absurd (by simp [hq, hd]) hcond

theorem findNodeByPath_intro (root : FsNode) (p : String) (n : FsNode)
    (hr : resolveSegs root (segsOf p) = .ok n)
    (hd : (p.data.getLast? == some '/') = true → n.isDirectory = true) :
    findNodeByPath root p = .ok n := by
  rw [findNodeByPath, hr]
  cases hq : (p.data.getLast? == some '/') with
  | false => simp
  | true => simp [hd hq]

theorem nodeWF_find (root : FsNode) (p : String) (n : FsNode)
    (hwf : nodeWF root = true) (h : findNodeByPath root p = .ok n) :
    nodeWF n = true :=
  nodeWF_resolve (segsOf p) root n hwf (findNodeByPath_ok root p n h).1

theorem find_after_modifyAt (root : FsNode) (p : String) (n : FsNode)
    (f : FsNode → FsNode) (h : findNodeByPath root p = .ok n)
    (hdir : ∀ m, (f m).isDirectory = m.isDirectory) :
    findNodeByPath (modifyAt root (segsOf p) f) p = .ok (f n) := by
  obtain ⟨hr, hd⟩ := findNodeByPath_ok root p n h
  apply findNodeByPath_intro
  · exact resolveSegs_modifyAt_self root (segsOf p) f n hr
  · intro hq; rw [hdir n]; exact hd hq

theorem validateNodeCreation_ok (root : FsNode) (req : NodeType) (info : PathInfo)
    (ign : Bool) (parent : FsNode)
    (h : validateNodeCreation root req info ign = .ok parent) :
    findNodeByPath root info.path = .ok parent ∧ parent.isDirectory = true ∧
      (ign = false → containsChild parent.children info.basename = false) ∧
      (req = .File → info.type ≠ .Invalid) := by
  rw [validateNodeCreation] at h
  split at h
  · cases h
  next hg =>
    split at h
    · cases h
    next par heq =>
      split at h
      · cases h
      next hd =>
        split at h
        · cases h
        next hc =>
          cases h
          refine ⟨heq, by simpa using hd, fun hign => ?_, fun hreq hty => ?_⟩
          · subst hign
            simpa using hc
          · subst hreq
            rw [hty] at hg
            simp at hg

/-! ## Claim theorems -/

/-- Claim C6: the run loop is fail-fast with no rollback — the first failing
command aborts the run, later commands are not applied, earlier mutations are
kept, and the final tree (returned, and rendered, in both the success and the
abort case) is exactly the result of applying the longest error-free prefix
of the command sequence; the run reports success exactly when that prefix is
the whole sequence. -/
theorem C6_run_fail_fast_no_rollback (t : FsNode) (cmds : List Cmd) :
    (runCmds t cmds).1 = applyCmds t (okPrefix t cmds) ∧
      ((runCmds t cmds).2 = true ↔ okPrefix t cmds = cmds) := by
  induction cmds generalizing t with
  | nil => simp [runCmds, okPrefix, applyCmds]
  | cons c rest ih =>
      cases hc : execCmd t c with
      | error e => simp [runCmds, okPrefix, applyCmds, hc]
      | ok t1 =>
          have h1 : runCmds t (c :: rest) = runCmds t1 rest := by rw [runCmds, hc]
          have h2 : okPrefix t (c :: rest) = c :: okPrefix t1 rest := by
            rw [okPrefix, hc]
          have h3 : applyCmds t (c :: okPrefix t1 rest)
              = applyCmds t1 (okPrefix t1 rest) := by rw [applyCmds, hc]
          rw [h1, h2, h3]
          refine ⟨(ih t1).1, ?_⟩
          rw [(ih t1).2]
          constructor
          · intro h; rw [h]
          · intro h; exact (List.cons.injEq _ _ _ _).mp h |>.2

/-- Claim C8 (amended): `mv X X` and `cp X X` succeed as a no-op and leave
the tree unchanged for every path `X` that does not denote the root; for the
root itself (`mv / /`, see the counterexample) the transfer is rejected by
the root-transfer gate instead. -/
theorem C8_self_transfer_noop (root : FsNode) (X : String)
    (mode : NodeTransferMode) (pathX bX : String) (tX : NodeType)
    (hInfo : getNodePathInfo (normalizePath X) NodeType.Invalid = ⟨pathX, bX, tX⟩)
    (hRoot : isRootDirectoryFor root pathX bX = false) :
    validateAndTransferNode root X X mode = .ok root := by
  rw [validateAndTransferNode, hInfo, hRoot]
  simp

/-- Claim C8, counterexample: `mv / /` does not succeed — it fails with the
root-transfer error (the claim asserts success for every `X`). -/
theorem C8_counterexample_root :
    mv (FsNode.mk "/" true []) "/" "/" = .error .rootTransfer := by rfl

/-- Claim C8, witness instantiation. -/
theorem C8_self_transfer_noop_witness :
    validateAndTransferNode (FsNode.mk "/" true []) "/d1" "/d1" .Move
      = .ok (FsNode.mk "/" true []) :=
  C8_self_transfer_noop (FsNode.mk "/" true []) "/d1" .Move "/" "d1"
    .Directory (by rfl) (by rfl)

/-- Claim C4: at the (possibly re-targeted) destination parent, a name
collision under the effective transfer name is resolved by the source node's
kind, which `validateAndTransferNode` wires into the `ignoreIfAlreadyExist`
flag (`!sourceIsDir`): a Directory source fails with `AlreadyExists`, a File
source succeeds as a no-op that leaves the whole tree (hence both the
existing destination child and the source) untouched, for both copy and
move. -/
theorem C4_collision_policy_by_source_kind (root parentS parentD : FsNode)
    (locS locD : List String) (basenameS basenameD : String)
    (mode : NodeTransferMode) (src : FsNode)
    (hsrc : lookupChild parentS.children basenameS = some src)
    (hdir : parentD.isDirectory = true)
    (hcol : containsChild parentD.children
      (if basenameD.isEmpty then basenameS else basenameD) = true) :
    transferNode root parentS locS parentD locD basenameS basenameD
        (!src.isDirectory) mode
      = if src.isDirectory then .error .alreadyExists else .ok root := by
  rw [transferNode, hdir]
  simp only [Bool.not_true, Bool.false_eq_true, if_false, hcol]
  cases hk : src.isDirectory <;> simp

/-- Claim C4, witness instantiation (file source, collision, copy mode):
the operation is a successful no-op. -/
theorem C4_collision_policy_witness :
    transferNode (FsNode.mk "/" true [("f.t", FsNode.mk "f.t" false []), ("g", FsNode.mk "g" true [])])
        (FsNode.mk "/" true [("f.t", FsNode.mk "f.t" false []), ("g", FsNode.mk "g" true [])]) []
        (FsNode.mk "/" true [("f.t", FsNode.mk "f.t" false []), ("g", FsNode.mk "g" true [])]) []
        "f.t" "f.t" (!(FsNode.mk "f.t" false []).isDirectory) .Copy
      = .ok (FsNode.mk "/" true [("f.t", FsNode.mk "f.t" false []), ("g", FsNode.mk "g" true [])]) := by
  rw [C4_collision_policy_by_source_kind _ _ _ _ _ _ _ _ (FsNode.mk "f.t" false [])
    (by rfl) (by rfl) (by rfl)]
  rfl

/-- Claim C3: when the destination parent already contains a child named
exactly the destination basename and that basename was explicitly given (not
defaulted, i.e. the destination does not denote the root), the transfer is
re-targeted one level deeper: the existing child becomes the actual
destination parent and the effective name reverts to the source's own
basename (`transferNode` receives that child, its location one segment
deeper, and an empty destination basename, so the node keeps `basenameS`);
consequently `md /d1; md /d2; mv /d1 /d2` places the directory at `/d2/d1`
rather than replacing `/d2` or failing. -/
theorem C3_retarget_one_level_deeper :
    (∀ (root : FsNode) (s d : String) (mode : NodeTransferMode)
      (pathS bS pathD bD : String) (tS tD : NodeType)
      (parentS parentD childD src : FsNode),
      getNodePathInfo (normalizePath s) NodeType.Invalid = ⟨pathS, bS, tS⟩ →
      getNodePathInfo (normalizePath d) NodeType.Invalid = ⟨pathD, bD, tD⟩ →
      isRootDirectoryFor root pathS bS = false →
      isRootDirectoryFor root pathD bD = false →
      ¬(pathS = pathD ∧ bS = bD) →
      charsLead ((normalizePath s).data ++ ['/']) (normalizePath d).data = false →
      findNodeByPath root pathS = .ok parentS →
      lookupChild parentS.children bS = some src →
      findNodeByPath root pathD = .ok parentD →
      parentD.isDirectory = true →
      (src.isDirectory = false → ((normalizePath s).data.getLast? == some '/') = false) →
      lookupChild parentD.children bD = some childD →
      validateAndTransferNode root s d mode
        = transferNode root parentS (segsOf pathS) childD (segsOf pathD ++ [bD])
            bS "" (!src.isDirectory) mode)
    ∧ runCmds (FsNode.mk "/" true []) [.md "/d1", .md "/d2", .mv "/d1" "/d2"]
        = (FsNode.mk "/" true
            [("d2", FsNode.mk "d2" true [("d1", FsNode.mk "d1" true [])])], true) := by
  constructor
  · intro root s d mode pathS bS pathD bD tS tD parentS parentD childD src
      hInfoS hInfoD hRootS hDR hNe hLead hFindS hSrc hFindD hDirD hNoTrail hChildD
    have hContS : containsChild parentS.children bS = true := by
      simp [containsChild, hSrc]
    have hContD : containsChild parentD.children bD = true := by
      simp [containsChild, hChildD]
    have hGate2 : ((pathS == pathD) && (bS == bD)) = false := by
      cases hq1 : pathS == pathD <;> cases hq2 : bS == bD <;> simp_all
    have hTrail : ((!src.isDirectory)
        && ((normalizePath s).data.getLast? == some '/')) = false := by
      cases hk : src.isDirectory with
      | true => simp
      | false => simp [hNoTrail hk]
    rw [validateAndTransferNode, hInfoS, hInfoD]
    simp only [hRootS, hDR, hGate2, hLead, hFindS, hFindD, hDirD, hSrc, hChildD,
      hContS, hContD, hTrail, Bool.false_eq_true, Bool.or_false, Bool.and_false,
      Bool.false_and, Bool.and_true, Bool.true_and, Bool.not_false, Bool.not_true,
      if_false, if_true]
  · rfl

/-- Claim C3, witness instantiation: in the tree `md /d1; md /d2` builds,
`mv /d1 /d2` is re-targeted onto the existing `/d2` child. -/
theorem C3_retarget_witness :
    validateAndTransferNode
        (FsNode.mk "/" true [("d1", FsNode.mk "d1" true []), ("d2", FsNode.mk "d2" true [])])
        "/d1" "/d2" .Move
      = transferNode
          (FsNode.mk "/" true [("d1", FsNode.mk "d1" true []), ("d2", FsNode.mk "d2" true [])])
          (FsNode.mk "/" true [("d1", FsNode.mk "d1" true []), ("d2", FsNode.mk "d2" true [])])
          (segsOf "/") (FsNode.mk "d2" true []) (segsOf "/" ++ ["d2"]) "d1" ""
          (!(FsNode.mk "d1" true []).isDirectory) .Move :=
  C3_retarget_one_level_deeper.1
    (FsNode.mk "/" true [("d1", FsNode.mk "d1" true []), ("d2", FsNode.mk "d2" true [])])
    "/d1" "/d2" .Move "/" "d1" "/" "d2" .Directory .Directory
    (FsNode.mk "/" true [("d1", FsNode.mk "d1" true []), ("d2", FsNode.mk "d2" true [])])
    (FsNode.mk "/" true [("d1", FsNode.mk "d1" true []), ("d2", FsNode.mk "d2" true [])])
    (FsNode.mk "d2" true []) (FsNode.mk "d1" true [])
    (by rfl) (by rfl) (by rfl) (by rfl) (by simp) (by rfl) (by rfl) (by rfl)
    (by rfl) (by rfl) (by intro h; cases h) (by rfl)

/-- Claim C7 (amended): the trailing-delimiter `InvalidName` checks for a
File source hold only once the transfer actually reaches the file-syntax
validation step — i.e. the transfer is not already resolved as one of the
trivial no-ops, is not a self-containment failure, both parent directories
resolve, and (for the destination check) the destination basename is
explicit, no collision re-targeting applies, and the source itself carries
no trailing delimiter.  Under those conditions: a File source whose raw path
carried a trailing delimiter fails with `InvalidName` (first conjunct), and
symmetrically an explicit destination basename with a trailing delimiter
fails with `InvalidName` (second conjunct).  Without those conditions the
claim fails, see the counterexample. -/
theorem C7_file_trailing_delimiter_invalid :
    (∀ (root : FsNode) (s d : String) (mode : NodeTransferMode)
      (pathS bS pathD bD : String) (tS tD : NodeType) (parentS parentD src : FsNode),
      getNodePathInfo (normalizePath s) NodeType.Invalid = ⟨pathS, bS, tS⟩ →
      getNodePathInfo (normalizePath d) NodeType.Invalid = ⟨pathD, bD, tD⟩ →
      isRootDirectoryFor root pathS bS = false →
      ¬(pathS = pathD ∧ bS = bD) →
      ¬(pathS = "/" ∧ isRootDirectoryFor root pathD bD = true) →
      charsLead ((normalizePath s).data ++ ['/']) (normalizePath d).data = false →
      findNodeByPath root pathS = .ok parentS →
      lookupChild parentS.children bS = some src →
      src.isDirectory = false →
      findNodeByPath root pathD = .ok parentD →
      ¬(pathS = pathD ∧
          bS = (if isRootDirectoryFor root pathD bD = true then bS else bD)) →
      parentD.isDirectory = true →
      ((normalizePath s).data.getLast? == some '/') = true →
      validateAndTransferNode root s d mode = .error .invalidName)
    ∧ (∀ (root : FsNode) (s d : String) (mode : NodeTransferMode)
      (pathS bS pathD bD : String) (tS tD : NodeType) (parentS parentD src : FsNode),
      getNodePathInfo (normalizePath s) NodeType.Invalid = ⟨pathS, bS, tS⟩ →
      getNodePathInfo (normalizePath d) NodeType.Invalid = ⟨pathD, bD, tD⟩ →
      isRootDirectoryFor root pathS bS = false →
      ¬(pathS = pathD ∧ bS = bD) →
      charsLead ((normalizePath s).data ++ ['/']) (normalizePath d).data = false →
      findNodeByPath root pathS = .ok parentS →
      lookupChild parentS.children bS = some src →
      src.isDirectory = false →
      findNodeByPath root pathD = .ok parentD →
      ¬(pathS = pathD ∧ bS = bD) →
      parentD.isDirectory = true →
      ((normalizePath s).data.getLast? == some '/') = false →
      isRootDirectoryFor root pathD bD = false →
      containsChild parentD.children bD = false →
      ((normalizePath d).data.getLast? == some '/') = true →
      validateAndTransferNode root s d mode = .error .invalidName) := by
  constructor
  · intro root s d mode pathS bS pathD bD tS tD parentS parentD src
      hInfoS hInfoD hRootS hNe1 hNe2 hLead hFindS hSrc hFile hFindD hNe3 hDirD hTrailS
    have hContS : containsChild parentS.children bS = true := by
      simp [containsChild, hSrc]
    rw [validateAndTransferNode, hInfoS, hInfoD]
    cases hdr : isRootDirectoryFor root pathD bD with
    | true =>
        have hPS : (pathS == "/") = false := by
          cases hq : pathS == "/" with
          | true => exact absurd ⟨by simpa using hq, hdr⟩ hNe2
          | false => rfl
        have hNe3' : (pathS == pathD) = false := by
          cases hq : pathS == pathD with
          | true =>
              rw [hdr] at hNe3
              exact absurd ⟨by simpa using hq, by simp⟩ hNe3
          | false => rfl
        simp only [hRootS, hdr, hNe3', hPS, hLead, hFindS, hFindD, hDirD, hSrc,
          hContS, hFile, hTrailS, Bool.false_and, Bool.false_or, Bool.or_false,
          Bool.and_true, Bool.true_and, Bool.and_false, Bool.not_false,
          Bool.not_true, Bool.false_eq_true, if_false, if_true, beq_self_eq_true]
    | false =>
        have hGate2 : ((pathS == pathD) && (bS == bD)) = false := by
          cases hq1 : pathS == pathD <;> cases hq2 : bS == bD <;> simp_all
        have hNe3' : ((pathS == pathD) && (bS == bD)) = false := hGate2
        simp only [hRootS, hdr, hGate2, hLead, hFindS, hFindD, hDirD, hSrc,
          hContS, hFile, hTrailS, Bool.false_and, Bool.false_or, Bool.or_false,
          Bool.and_true, Bool.true_and, Bool.and_false, Bool.not_false,
          Bool.not_true, Bool.false_eq_true, if_false, if_true]
  · intro root s d mode pathS bS pathD bD tS tD parentS parentD src
      hInfoS hInfoD hRootS hNe1 hLead hFindS hSrc hFile hFindD hNe3 hDirD
      hTrailS hDR hNoRetarget hTrailD
    have hContS : containsChild parentS.children bS = true := by
      simp [containsChild, hSrc]
    have hGate2 : ((pathS == pathD) && (bS == bD)) = false := by
      cases hq1 : pathS == pathD <;> cases hq2 : bS == bD <;> simp_all
    rw [validateAndTransferNode, hInfoS, hInfoD]
    simp only [hRootS, hDR, hGate2, hLead, hFindS, hFindD, hDirD, hSrc, hContS,
      hFile, hTrailS, hNoRetarget, hTrailD, Bool.false_and, Bool.false_or,
      Bool.or_false, Bool.and_true, Bool.true_and, Bool.and_false,
      Bool.not_false, Bool.not_true, Bool.false_eq_true, if_false, if_true]

/-- Claim C7, counterexample: in a tree with the file `/f.t`, the transfer
`mv /f.t/ /` has a File source whose raw path carried a trailing delimiter,
yet it succeeds as a no-op (the identical-node gate fires first) instead of
failing with `InvalidName` as the claim states. -/
theorem C7_counterexample_noop_preempts :
    lookupChild (FsNode.mk "/" true [("f.t", FsNode.mk "f.t" false [])]).children "f.t"
        = some (FsNode.mk "f.t" false []) ∧
      ((normalizePath "/f.t/").data.getLast? == some '/') = true ∧
      mv (FsNode.mk "/" true [("f.t", FsNode.mk "f.t" false [])]) "/f.t/" "/"
        = .ok (FsNode.mk "/" true [("f.t", FsNode.mk "f.t" false [])]) :=
  ⟨rfl, rfl, rfl⟩

/-- Claim C7, witness instantiation of the first conjunct: `mv /f.t/ /g`
fails with `InvalidName` in a tree containing the file `/f.t`. -/
theorem C7_file_trailing_delimiter_witness :
    validateAndTransferNode (FsNode.mk "/" true [("f.t", FsNode.mk "f.t" false [])])
        "/f.t/" "/g" .Move = .error .invalidName :=
  C7_file_trailing_delimiter_invalid.1
    (FsNode.mk "/" true [("f.t", FsNode.mk "f.t" false [])]) "/f.t/" "/g" .Move
    "/" "f.t" "/" "g" .File .Directory
    (FsNode.mk "/" true [("f.t", FsNode.mk "f.t" false [])])
    (FsNode.mk "/" true [("f.t", FsNode.mk "f.t" false [])])
    (FsNode.mk "f.t" false [])
    (by rfl) (by rfl) (by rfl) (by simp) (by decide) (by rfl) (by rfl) (by rfl)
    (by rfl) (by rfl) (by decide) (by rfl) (by rfl)

theorem getNodePathInfo_req_of_no_trailing (np : String) (req1 req2 : NodeType)
    (h : (np.data.getLast? == some '/') = false) :
    getNodePathInfo np req1 = getNodePathInfo np req2 := by
  rw [getNodePathInfo, getNodePathInfo]
  cases he : np.data.isEmpty with
  | true => simp
  | false => simp [h]

theorem getNodePathInfo_dir_not_invalid (np : String) (p b : String) (t : NodeType)
    (h : getNodePathInfo np NodeType.Directory = ⟨p, b, t⟩) : t ≠ .Invalid := by
  rw [getNodePathInfo] at h
  cases he : np.data.isEmpty with
  | true =>
      simp only [he, if_true] at h
      cases h
      simp
  | false =>
      simp only [he, Bool.false_eq_true, if_false,
        (show (NodeType.Directory == NodeType.File) = false from rfl),
        Bool.and_false] at h
      cases h
      split <;> simp

theorem validateNodeCreation_collision (root : FsNode) (req : NodeType)
    (info : PathInfo) (ign : Bool) (parent : FsNode)
    (hreq : ((req == NodeType.File) && (info.type == NodeType.Invalid)) = false)
    (hfind : findNodeByPath root info.path = .ok parent)
    (hdir : parent.isDirectory = true)
    (hcont : containsChild parent.children info.basename = true) :
    validateNodeCreation root req info ign
      = if ign then .ok parent else .error .alreadyExists := by
  rw [validateNodeCreation]
  simp only [hreq, Bool.false_eq_true, if_false, hfind, hdir, Bool.not_true, hcont,
    Bool.true_and]
  cases ign <;> simp

/-- Claim C5 (amended): when the parent of `P` resolves to an existing
directory that already contains a child named `P`'s basename, `md P` fails
with `AlreadyExists` (and, being an error, mutates nothing), and `mf P`
succeeds returning the unchanged tree — the latter provided the normalized
path carries no trailing delimiter (with one, `mf` fails with `InvalidName`
before looking at the parent, see the counterexample); consequently after a
successful `md P` a second `md P` fails with `AlreadyExists`, and after a
successful `mf P` a second `mf P` succeeds leaving the tree unchanged. -/
theorem C5_duplicate_creation_policy :
    (∀ (root : FsNode) (P pathP bP : String) (tP : NodeType) (parent : FsNode),
      getNodePathInfo (normalizePath P) NodeType.Directory = ⟨pathP, bP, tP⟩ →
      findNodeByPath root pathP = .ok parent →
      parent.isDirectory = true →
      containsChild parent.children bP = true →
      md root P = .error .alreadyExists)
    ∧ (∀ (root : FsNode) (P pathP bP : String) (tP : NodeType) (parent : FsNode),
      getNodePathInfo (normalizePath P) NodeType.Directory = ⟨pathP, bP, tP⟩ →
      findNodeByPath root pathP = .ok parent →
      parent.isDirectory = true →
      containsChild parent.children bP = true →
      ((normalizePath P).data.getLast? == some '/') = false →
      mf root P = .ok root)
    ∧ (∀ (root : FsNode) (P : String) (t1 : FsNode),
      md root P = .ok t1 → md t1 P = .error .alreadyExists)
    ∧ (∀ (root : FsNode) (P : String) (t1 : FsNode),
      mf root P = .ok t1 → mf t1 P = .ok t1) := by
  refine ⟨?_, ?_, ?_, ?_⟩
  · intro root P pathP bP tP parent hInfo hFind hDir hCont
    have hv : validateNodeCreation root NodeType.Directory ⟨pathP, bP, tP⟩ false
        = .error .alreadyExists := by
      rw [validateNodeCreation_collision root NodeType.Directory ⟨pathP, bP, tP⟩
        false parent (by simp) (by simpa using hFind) hDir (by simpa using hCont)]
      rfl
    rw [md, hInfo, hv]
  · intro root P pathP bP tP parent hInfo hFind hDir hCont hNoTrail
    have hInfoF : getNodePathInfo (normalizePath P) NodeType.File = ⟨pathP, bP, tP⟩ := by
      rw [getNodePathInfo_req_of_no_trailing (normalizePath P) NodeType.File
        NodeType.Directory hNoTrail, hInfo]
    have hty : tP ≠ .Invalid := getNodePathInfo_dir_not_invalid (normalizePath P) _ _ _ hInfo
    have hv : validateNodeCreation root NodeType.File ⟨pathP, bP, tP⟩ true = .ok parent := by
      rw [validateNodeCreation_collision root NodeType.File ⟨pathP, bP, tP⟩
        true parent (by simpa using hty) (by simpa using hFind) hDir (by simpa using hCont)]
      simp
    rw [mf, hInfoF, hv]
    simp only [hCont, if_true]
  · intro root P t1 h
    rw [md] at h
    cases hv : validateNodeCreation root NodeType.Directory
        (getNodePathInfo (normalizePath P) NodeType.Directory) false with
    | error e => rw [hv] at h; cases h
    | ok parent =>
        rw [hv] at h
        cases h
        obtain ⟨hFind, hDir, hContF, _⟩ :=
          validateNodeCreation_ok _ _ _ _ _ hv
        have hCont := hContF rfl
        set info := getNodePathInfo (normalizePath P) NodeType.Directory with hinfo
        have hFind2 : findNodeByPath
            (insertIntoAt root (segsOf info.path) info.basename
              (FsNode.mk info.basename true []))
            info.path
            = .ok (FsNode.mk parent.name parent.isDirectory
                (insertChild parent.children info.basename
                  (FsNode.mk info.basename true []))) :=
          find_after_modifyAt root info.path parent _ hFind (fun m => by simp)
        have hv2 : validateNodeCreation
            (insertIntoAt root (segsOf info.path) info.basename
              (FsNode.mk info.basename true []))
            NodeType.Directory info false = .error .alreadyExists := by
          rw [validateNodeCreation_collision _ NodeType.Directory info false _
            (by simp) hFind2 (by simpa using hDir)
            (by simpa using containsChild_insert_self parent.children info.basename _)]
          rfl
        rw [md, ← hinfo, hv2]
  · intro root P t1 h
    rw [mf] at h
    cases hv : validateNodeCreation root NodeType.File
        (getNodePathInfo (normalizePath P) NodeType.File) true with
    | error e => rw [hv] at h; cases h
    | ok parent =>
        rw [hv] at h
        obtain ⟨hFind, hDir, _, htyF⟩ := validateNodeCreation_ok _ _ _ _ _ hv
        set info := getNodePathInfo (normalizePath P) NodeType.File with hinfo
        have hty : (info.type == NodeType.Invalid) = false := by
          simpa using htyF rfl
        cases hc : containsChild parent.children info.basename with
        | true =>
            simp only [hc, if_true] at h
            cases h
            rw [mf, ← hinfo, hv]
            simp [hc]
        | false =>
            simp only [hc, Bool.false_eq_true, if_false] at h
            cases h
            have hFind2 : findNodeByPath
                (insertIntoAt root (segsOf info.path) info.basename
                  (FsNode.mk info.basename false []))
                info.path
                = .ok (FsNode.mk parent.name parent.isDirectory
                    (insertChild parent.children info.basename
                      (FsNode.mk info.basename false []))) :=
              find_after_modifyAt root info.path parent _ hFind (fun m => by simp)
            have hv2 : validateNodeCreation
                (insertIntoAt root (segsOf info.path) info.basename
                  (FsNode.mk info.basename false []))
                NodeType.File info true
                = .ok (FsNode.mk parent.name parent.isDirectory
                    (insertChild parent.children info.basename
                      (FsNode.mk info.basename false []))) := by
              rw [validateNodeCreation_collision _ NodeType.File info true _
                (by simp [hty]) hFind2 (by simpa using hDir)
                (by simpa using containsChild_insert_self parent.children info.basename _)]
              simp
            rw [mf, ← hinfo, hv2]
            simp only [FsNode.children_mk,
              containsChild_insert_self parent.children info.basename _, if_true]

/-- Claim C5, counterexample: with the file `/f.t` present, the path
`P = /f.t/` satisfies the claim's premise (its parent resolves to the root
directory, which contains a child named `P`'s basename `f.t`), yet
`mf /f.t/` fails with `InvalidName` instead of succeeding. -/
theorem C5_counterexample_trailing_mf :
    (getNodePathInfo (normalizePath "/f.t/") NodeType.Directory).basename = "f.t" ∧
      findNodeByPath (FsNode.mk "/" true [("f.t", FsNode.mk "f.t" false [])])
          (getNodePathInfo (normalizePath "/f.t/") NodeType.Directory).path
        = .ok (FsNode.mk "/" true [("f.t", FsNode.mk "f.t" false [])]) ∧
      containsChild
          (FsNode.mk "/" true [("f.t", FsNode.mk "f.t" false [])]).children "f.t" = true ∧
      mf (FsNode.mk "/" true [("f.t", FsNode.mk "f.t" false [])]) "/f.t/"
        = .error .invalidName :=
  ⟨rfl, rfl, rfl, rfl⟩

/-- Claim C5, witness instantiation: with `/d` present, `md /d` fails with
`AlreadyExists` and with `/f.t` present, `mf /f.t` is a successful no-op. -/
theorem C5_duplicate_creation_witness :
    md (FsNode.mk "/" true [("d", FsNode.mk "d" true [])]) "/d" = .error .alreadyExists ∧
      mf (FsNode.mk "/" true [("f.t", FsNode.mk "f.t" false [])]) "/f.t"
        = .ok (FsNode.mk "/" true [("f.t", FsNode.mk "f.t" false [])]) :=
  ⟨C5_duplicate_creation_policy.1
      (FsNode.mk "/" true [("d", FsNode.mk "d" true [])]) "/d" "/" "d" .Directory
      (FsNode.mk "/" true [("d", FsNode.mk "d" true [])]) (by rfl) (by rfl) (by rfl) (by rfl),
    C5_duplicate_creation_policy.2.1
      (FsNode.mk "/" true [("f.t", FsNode.mk "f.t" false [])]) "/f.t" "/" "f.t" .File
      (FsNode.mk "/" true [("f.t", FsNode.mk "f.t" false [])]) (by rfl) (by rfl) (by rfl)
      (by rfl) (by rfl)⟩

theorem normalizePath_no_double_slash (d : String) (rest : List Char) :
    (normalizePath d).data ≠ '/' :: '/' :: rest := by
  rw [normalizePath_data]
  cases hns : normSegs d.data with
  | nil => rw [normSegs_nil_trailing d.data hns]; simp [joinSegs]
  | cons n ns' =>
      have hgood := normSegs_good d.data n (by rw [hns]; exact List.mem_cons_self n ns')
      have hjoin : joinSegs (n :: ns') (normTrailing d.data)
          = '/' :: (n ++ joinSegs ns' (normTrailing d.data)) := by
        simp [joinSegs, List.flatten_cons, List.append_assoc]
      rw [hjoin]
      intro h
      injection h with h1 h2
      cases n with
      | nil => exact hgood.1 rfl
      | cons c n' =>
          rw [List.cons_append] at h2
          injection h2 with h3 h4
          exact hgood.2 (h3 ▸ List.mem_cons_self c n')

theorem pathRender_inj (ps qs : List (List Char))
    (hps : ∀ n ∈ ps, n ≠ [] ∧ '/' ∉ n) (hqs : ∀ n ∈ qs, n ≠ [] ∧ '/' ∉ n)
    (h : pathRender ps = pathRender qs) : ps = qs := by
  cases ps with
  | nil =>
      cases qs with
      | nil => rfl
      | cons q qs' =>
          exfalso
          simp only [pathRender] at h
          have hd := congrArg String.data h
          have hjoin : joinSegs (q :: qs') false = '/' :: (q ++ joinSegs qs' false) := by
            simp [joinSegs, List.flatten_cons, List.append_assoc]
          rw [hjoin] at hd
          injection hd with h1 h2
          have := (hqs q (List.mem_cons_self q qs')).1
          cases q with
          | nil => exact this rfl
          | cons c q0 => cases h2
  | cons p ps' =>
      cases qs with
      | nil =>
          exfalso
          simp only [pathRender] at h
          have hd := congrArg String.data h
          have hjoin : joinSegs (p :: ps') false = '/' :: (p ++ joinSegs ps' false) := by
            simp [joinSegs, List.flatten_cons, List.append_assoc]
          rw [hjoin] at hd
          injection hd with h1 h2
          have := (hps p (List.mem_cons_self p ps')).1
          cases p with
          | nil => exact this rfl
          | cons c p0 => cases h2
      | cons q qs' =>
          simp only [pathRender] at h
          have hd := congrArg String.data h
          exact joinSegs_inj _ _ hps hqs hd

/-- Claim C2 (amended): whenever the normalized destination is a strict
descendant of the normalized source — it extends the source by the delimiter
and at least one further character, i.e. it starts with `source ++ "/"` but
is not exactly `source ++ "/"` — the transfer fails with the
self-containment error before any resolution or mutation, so the tree is
unchanged.  When the destination is exactly `source ++ "/"` (the same node
written with a trailing delimiter) the identical-node gate fires first and
the transfer succeeds as a no-op, see the counterexample. -/
theorem C2_self_containment_strict_descendant (root : FsNode) (s d : String)
    (mode : NodeTransferMode)
    (hLead : charsLead ((normalizePath s).data ++ ['/']) (normalizePath d).data = true)
    (hNeq : (normalizePath d).data ≠ (normalizePath s).data ++ ['/']) :
    validateAndTransferNode root s d mode = .error .selfContainment := by
  have hgoodS : ∀ n ∈ normSegs s.data, n ≠ [] ∧ '/' ∉ n := normSegs_good s.data
  have hgoodD : ∀ n ∈ normSegs d.data, n ≠ [] ∧ '/' ∉ n := normSegs_good d.data
  obtain ⟨rest, hrest⟩ := (charsLead_iff _ _).mp hLead
  have hrest' : (normalizePath d).data = (normalizePath s).data ++ '/' :: rest := by
    simpa [List.append_assoc] using hrest
  have hrne : rest ≠ [] := fun h0 => hNeq (by rw [hrest', h0])
  -- the source has at least one real segment
  have hnsS_ne : normSegs s.data ≠ [] := by
    intro h0
    have hsrc : (normalizePath s).data = ['/'] := by
      rw [normalizePath_data, h0, normSegs_nil_trailing s.data h0]
      rfl
    rw [hsrc] at hrest'
    exact normalizePath_no_double_slash d rest hrest'
  -- and so does the destination
  have hnsD_ne : normSegs d.data ≠ [] := by
    intro h0
    have hdst : (normalizePath d).data = ['/'] := by
      rw [normalizePath_data, h0, normSegs_nil_trailing d.data h0]
      rfl
    rw [hdst] at hrest'
    have hlen := congrArg List.length hrest'
    have hlenS : (normalizePath s).data.length ≠ 0 := by
      intro hz
      exact normalizePath_data_ne_nil s (List.length_eq_zero.mp hz)
    simp only [List.length_cons, List.length_append, List.length_nil] at hlen
    omega
  have hlastS : (normSegs s.data).getLast? = some ((normSegs s.data).getLast hnsS_ne) :=
    List.getLast?_eq_getLast_of_ne_nil hnsS_ne
  have hlastD : (normSegs d.data).getLast? = some ((normSegs d.data).getLast hnsD_ne) :=
    List.getLast?_eq_getLast_of_ne_nil hnsD_ne
  have hgoodLastS := hgoodS _ (List.getLast_mem hnsS_ne)
  have hgoodLastD := hgoodD _ (List.getLast_mem hnsD_ne)
  have hbS : (((normSegs s.data).getLast?).getD []) = (normSegs s.data).getLast hnsS_ne := by
    rw [hlastS]; rfl
  have hbD : (((normSegs d.data).getLast?).getD []) = (normSegs d.data).getLast hnsD_ne := by
    rw [hlastD]; rfl
  -- basenames are non-empty strings
  have hbSne : (String.mk (((normSegs s.data).getLast?).getD []) == "") = false := by
    rw [beq_eq_false_iff_ne]
    intro h0
    apply hgoodLastS.1
    have := congrArg String.data h0
    rw [hbS] at this
    simpa using this
  have hbDne : (String.mk (((normSegs d.data).getLast?).getD []) == "") = false := by
    rw [beq_eq_false_iff_ne]
    intro h0
    apply hgoodLastD.1
    have := congrArg String.data h0
    rw [hbD] at this
    simpa using this
  -- gate 1 (root source) is off
  have hG1 : isRootDirectoryFor root
      (pathRender (normSegs s.data).dropLast)
      (String.mk (((normSegs s.data).getLast?).getD [])) = false := by
    rw [isRootDirectoryFor, hbSne, Bool.and_false]
  -- gate 2, first disjunct (identical source and destination) is off
  have hG2 : ((pathRender (normSegs s.data).dropLast
      == pathRender (normSegs d.data).dropLast)
      && (String.mk (((normSegs s.data).getLast?).getD [])
      == String.mk (((normSegs d.data).getLast?).getD []))) = false := by
    cases hq1 : (pathRender (normSegs s.data).dropLast
        == pathRender (normSegs d.data).dropLast) with
    | false => rfl
    | true =>
        cases hq2 : (String.mk (((normSegs s.data).getLast?).getD [])
            == String.mk (((normSegs d.data).getLast?).getD [])) with
        | false => rfl
        | true =>
            exfalso
            have hdrop : (normSegs s.data).dropLast = (normSegs d.data).dropLast := by
              apply pathRender_inj _ _
                (fun n hn => hgoodS n ((List.dropLast_sublist _).subset hn))
                (fun n hn => hgoodD n ((List.dropLast_sublist _).subset hn))
              exact beq_iff_eq.mp hq1
            have hlast : (normSegs s.data).getLast hnsS_ne
                = (normSegs d.data).getLast hnsD_ne := by
              have := beq_iff_eq.mp hq2
              have hdata := congrArg String.data this
              rw [hbS, hbD] at hdata
              simpa using hdata
            have hns_eq : normSegs s.data = normSegs d.data := by
              rw [← List.dropLast_append_getLast hnsS_ne,
                ← List.dropLast_append_getLast hnsD_ne, hdrop, hlast]
            have hrlen : rest.length ≠ 0 := fun h0 =>
              hrne (List.length_eq_zero.mp h0)
            have hlen := congrArg List.length hrest'
            rw [normalizePath_data, normalizePath_data, hns_eq,
              List.length_append, List.length_cons] at hlen
            cases htS : normTrailing s.data <;> cases htD : normTrailing d.data <;>
              rw [htS, htD] at hlen
            · rw [joinSegs_length_false] at hlen; omega
            · rw [joinSegs_length_true, joinSegs_length_false] at hlen; omega
            · rw [joinSegs_length_false, joinSegs_length_true] at hlen; omega
            · rw [joinSegs_length_true] at hlen; omega
  -- gate 2, second disjunct (root-to-root no-op) is off
  have hDR : isRootDirectoryFor root
      (pathRender (normSegs d.data).dropLast)
      (String.mk (((normSegs d.data).getLast?).getD [])) = false := by
    rw [isRootDirectoryFor, hbDne, Bool.and_false]
  rw [validateAndTransferNode, getNodePathInfo_norm_inv s, getNodePathInfo_norm_inv d]
  simp only [hG1, hG2, hDR, hLead, Bool.and_false, Bool.or_false, Bool.false_eq_true,
    if_false, if_true]

/-- Claim C2, counterexample: `mv /a /a/` has a normalized destination that
starts with the normalized source followed immediately by the delimiter,
yet it succeeds as a no-op (the identical-node gate fires before the
self-containment check) instead of failing. -/
theorem C2_counterexample_trailing_delimiter :
    charsLead ((normalizePath "/a").data ++ ['/']) (normalizePath "/a/").data = true ∧
      mv (FsNode.mk "/" true [("a", FsNode.mk "a" true [])]) "/a" "/a/"
        = .ok (FsNode.mk "/" true [("a", FsNode.mk "a" true [])]) :=
  ⟨rfl, rfl⟩

/-- Claim C2, witness instantiation: `mv /a /a/b` fails with the
self-containment error. -/
theorem C2_self_containment_witness :
    validateAndTransferNode (FsNode.mk "/" true [("a", FsNode.mk "a" true [])])
        "/a" "/a/b" .Move = .error .selfContainment :=
  C2_self_containment_strict_descendant
    (FsNode.mk "/" true [("a", FsNode.mk "a" true [])]) "/a" "/a/b" .Move
    (by rfl) (by decide)

/-- Claim C1 (amended): a copy-mode transfer that actually mutates (no
collision at the destination) inserts at the destination a deep clone of the
source subtree — structurally identical to it apart from the renamed top
node — and, provided the destination parent does not lie inside the source
subtree (which the self-containment check misses for a trailing-delimiter
source, see the counterexample) and vice versa, the subtree at the source
location is left unchanged while the clone is found at the destination;
in the tree-as-value model clone and original share no state, so the
`md /d1; mf /d1/f1; cp /d1 /d2; rm /d2/f1` scenario leaves `/d1/f1`
present, and symmetrically `rm /d1/f1` after the copy leaves `/d2/f1`
present. -/
theorem C1_copy_deep_clone_independence :
    (∀ (root pS pD src : FsNode) (locS locD : List String) (bS bD eff : String)
      (ign : Bool),
      eff = (if bD.isEmpty then bS else bD) →
      resolveSegs root locS = .ok pS →
      pS.isDirectory = true →
      lookupChild pS.children bS = some src →
      resolveSegs root locD = .ok pD →
      pD.isDirectory = true →
      containsChild pD.children eff = false →
      leadsTo (locS ++ [bS]) locD = false →
      leadsTo (locD ++ [eff]) (locS ++ [bS]) = false →
      transferNode root pS locS pD locD bS bD ign .Copy
        = .ok (insertIntoAt root locD eff (copyNode src eff))
      ∧ copyNode src eff
          = FsNode.mk (if eff.isEmpty then src.name else eff)
              src.isDirectory src.children
      ∧ resolveSegs (insertIntoAt root locD eff (copyNode src eff))
          (locS ++ [bS]) = .ok src
      ∧ resolveSegs (insertIntoAt root locD eff (copyNode src eff))
          (locD ++ [eff]) = .ok (copyNode src eff))
    ∧ (runCmds (FsNode.mk "/" true [])
        [.md "/d1", .mf "/d1/f1", .cp "/d1" "/d2", .rm "/d2/f1"]).1
        = FsNode.mk "/" true
            [("d1", FsNode.mk "d1" true [("f1", FsNode.mk "f1" false [])]),
             ("d2", FsNode.mk "d2" true [])]
    ∧ (runCmds (FsNode.mk "/" true [])
        [.md "/d1", .mf "/d1/f1", .cp "/d1" "/d2", .rm "/d1/f1"]).1
        = FsNode.mk "/" true
            [("d1", FsNode.mk "d1" true []),
             ("d2", FsNode.mk "d2" true [("f1", FsNode.mk "f1" false [])])] := by
  refine ⟨?_, rfl, rfl⟩
  intro root pS pD src locS locD bS bD eff ign heff hRS hdirS hsrc hRD hdirD hfree
    hnot1 hnot2
  have hTrans : transferNode root pS locS pD locD bS bD ign .Copy
      = .ok (insertIntoAt root locD eff (copyNode src eff)) := by
    rw [transferNode, ← heff]
    simp only [hdirD, Bool.not_true, Bool.false_eq_true, if_false, hfree, hsrc]
    simp
  refine ⟨hTrans, copyNode_eq src eff, ?_, ?_⟩
  · -- the source subtree is untouched by the insertion
    have hbase : resolveSegs root (locS ++ [bS]) = .ok src := by
      rw [resolveSegs_append, hRS]
      simp [resolveSegs, getChildNode, hdirS, hsrc]
    cases hl : leadsTo locD (locS ++ [bS]) with
    | false =>
        have := resolveSegs_modifyAt_diverge root locD (locS ++ [bS])
          (fun n => FsNode.mk n.name n.isDirectory
            (insertChild n.children eff (copyNode src eff))) hl hnot1
        rw [insertIntoAt, this, hbase]
    | true =>
        obtain ⟨suffix, hsuf⟩ := (leadsTo_iff _ _).mp hl
        cases suffix with
        | nil =>
            exfalso
            rw [List.append_nil] at hsuf
            rw [hsuf] at hnot1
            rw [leadsTo_refl] at hnot1
            cases hnot1
        | cons k1 rest1 =>
            have hk1 : k1 ≠ eff := by
              intro hk
              subst hk
              have : leadsTo (locD ++ [k1]) (locS ++ [bS]) = true := by
                rw [leadsTo_iff]
                exact ⟨rest1, by rw [hsuf, List.append_assoc]; rfl⟩
              rw [this] at hnot2
              cases hnot2
            rw [hsuf, resolveSegs_insertIntoAt_through root locD eff k1
              (copyNode src eff) rest1 hk1, ← hsuf, hbase]
  · -- the clone sits at the destination
    have h1 : resolveSegs (insertIntoAt root locD eff (copyNode src eff)) locD
        = .ok (FsNode.mk pD.name pD.isDirectory
            (insertChild pD.children eff (copyNode src eff))) := by
      rw [insertIntoAt]
      exact resolveSegs_modifyAt_self root locD _ pD hRD
    rw [resolveSegs_append, h1]
    simp [resolveSegs, getChildNode, hdirD,
      lookupChild_insert_self pD.children eff (copyNode src eff) hfree]

/-- Claim C1, counterexample: `cp /d1/ /d1/x` (a trailing-delimiter source
slips past the self-containment check) succeeds, yet the source subtree at
`/d1` is not left unchanged — the clone is inserted inside it. -/
theorem C1_counterexample_source_subtree_changed :
    cp (FsNode.mk "/" true [("d1", FsNode.mk "d1" true [])]) "/d1/" "/d1/x"
        = .ok (FsNode.mk "/" true
            [("d1", FsNode.mk "d1" true [("x", FsNode.mk "x" true [])])]) ∧
      findNodeByPath (FsNode.mk "/" true [("d1", FsNode.mk "d1" true [])]) "/d1"
        = .ok (FsNode.mk "d1" true []) ∧
      findNodeByPath
          (FsNode.mk "/" true
            [("d1", FsNode.mk "d1" true [("x", FsNode.mk "x" true [])])]) "/d1"
        = .ok (FsNode.mk "d1" true [("x", FsNode.mk "x" true [])]) :=
  ⟨rfl, rfl, rfl⟩

/-- Claim C1, witness instantiation: copying `/d1` (which holds `f1`) to a
fresh name `d2` under the root. -/
theorem C1_copy_independence_witness :
    transferNode
        (FsNode.mk "/" true [("d1", FsNode.mk "d1" true [("f1", FsNode.mk "f1" false [])])])
        (FsNode.mk "/" true [("d1", FsNode.mk "d1" true [("f1", FsNode.mk "f1" false [])])])
        []
        (FsNode.mk "/" true [("d1", FsNode.mk "d1" true [("f1", FsNode.mk "f1" false [])])])
        [] "d1" "d2" false .Copy
      = .ok (insertIntoAt
          (FsNode.mk "/" true [("d1", FsNode.mk "d1" true [("f1", FsNode.mk "f1" false [])])])
          [] "d2"
          (copyNode (FsNode.mk "d1" true [("f1", FsNode.mk "f1" false [])]) "d2")) :=
  (C1_copy_deep_clone_independence.1
    (FsNode.mk "/" true [("d1", FsNode.mk "d1" true [("f1", FsNode.mk "f1" false [])])])
    (FsNode.mk "/" true [("d1", FsNode.mk "d1" true [("f1", FsNode.mk "f1" false [])])])
    (FsNode.mk "/" true [("d1", FsNode.mk "d1" true [("f1", FsNode.mk "f1" false [])])])
    (FsNode.mk "d1" true [("f1", FsNode.mk "f1" false [])])
    [] [] "d1" "d2" "d2" false
    (by rfl) (by rfl) (by rfl) (by rfl) (by rfl) (by rfl) (by rfl) (by rfl)
    (by rfl)).1

theorem insertIntoAt_preserves (t : FsNode) (loc : List String) (k : String)
    (v : FsNode) :
    (insertIntoAt t loc k v).name = t.name ∧
      (insertIntoAt t loc k v).isDirectory = t.isDirectory :=
  ⟨modifyAt_name t loc _ (fun n => rfl), modifyAt_isDirectory t loc _ (fun n => rfl)⟩

theorem eraseAt_preserves (t : FsNode) (loc : List String) (k : String) :
    (eraseAt t loc k).name = t.name ∧ (eraseAt t loc k).isDirectory = t.isDirectory :=
  ⟨modifyAt_name t loc _ (fun n => rfl), modifyAt_isDirectory t loc _ (fun n => rfl)⟩

theorem transferNode_ok_preserves (root pS pD : FsNode) (locS locD : List String)
    (bS bD : String) (ign : Bool) (mode : NodeTransferMode) (t1 : FsNode)
    (h : transferNode root pS locS pD locD bS bD ign mode = .ok t1) :
    t1.name = root.name ∧ t1.isDirectory = root.isDirectory := by
  rw [transferNode] at h
  repeat' split at h
  all_goals try cases h
  all_goals first
    | exact ⟨rfl, rfl⟩
    | exact ⟨by rw [(eraseAt_preserves _ _ _).1, (insertIntoAt_preserves _ _ _ _).1],
        by rw [(eraseAt_preserves _ _ _).2, (insertIntoAt_preserves _ _ _ _).2]⟩
    | exact ⟨(insertIntoAt_preserves _ _ _ _).1, (insertIntoAt_preserves _ _ _ _).2⟩

set_option maxHeartbeats 2000000 in
theorem vat_ok_preserves (root : FsNode) (s d : String) (mode : NodeTransferMode)
    (t1 : FsNode) (h : validateAndTransferNode root s d mode = .ok t1) :
    t1.name = root.name ∧ t1.isDirectory = root.isDirectory := by
  rw [validateAndTransferNode] at h
  generalize getNodePathInfo (normalizePath s) NodeType.Invalid = iS at h
  generalize getNodePathInfo (normalizePath d) NodeType.Invalid = iD at h
  generalize normalizePath s = ns at h
  generalize normalizePath d = nd at h
  repeat' split at h
  all_goals try simp only [] at h
  repeat' split at h
  all_goals try cases h
  all_goals first
    | exact ⟨rfl, rfl⟩
    | exact transferNode_ok_preserves _ _ _ _ _ _ _ _ _ _ h

theorem md_ok_preserves (root : FsNode) (p : String) (t1 : FsNode)
    (h : md root p = .ok t1) :
    t1.name = root.name ∧ t1.isDirectory = root.isDirectory := by
  rw [md] at h
  split at h
  · cases h
  · cases h
    exact ⟨(insertIntoAt_preserves _ _ _ _).1, (insertIntoAt_preserves _ _ _ _).2⟩

theorem mf_ok_preserves (root : FsNode) (p : String) (t1 : FsNode)
    (h : mf root p = .ok t1) :
    t1.name = root.name ∧ t1.isDirectory = root.isDirectory := by
  rw [mf] at h
  split at h
  · cases h
  · split at h
    · cases h; exact ⟨rfl, rfl⟩
    · cases h
      exact ⟨(insertIntoAt_preserves _ _ _ _).1, (insertIntoAt_preserves _ _ _ _).2⟩

theorem rm_ok_preserves (root : FsNode) (p : String) (t1 : FsNode)
    (h : rm root p = .ok t1) :
    t1.name = root.name ∧ t1.isDirectory = root.isDirectory := by
  rw [rm] at h
  split at h
  · cases h
  · split at h
    · cases h
      exact ⟨(eraseAt_preserves _ _ _).1, (eraseAt_preserves _ _ _).2⟩
    · cases h

/-- Claim C9 (amended): the state *is* the root node, so the root always
exists; no command changes its name or directory-kind (in particular a tree
rooted at a Directory named `"/"` stays that way); a transfer whose source
denotes the root fails with the root-transfer error; and `rm /` fails with
`NotFound` without mutating in every state whose root has no empty-named
child — but `md /` can create such a child, after which `rm /` succeeds and
mutates the tree (see the counterexample), so the root itself is still never
removed but `rm /` is not always a failure. -/
theorem C9_root_invariants :
    (∀ (t : FsNode) (c : Cmd) (t1 : FsNode), execCmd t c = .ok t1 →
      t1.name = t.name ∧ t1.isDirectory = t.isDirectory)
    ∧ (∀ (root : FsNode) (s d : String) (mode : NodeTransferMode)
        (pathS bS : String) (tS : NodeType),
        getNodePathInfo (normalizePath s) NodeType.Invalid = ⟨pathS, bS, tS⟩ →
        isRootDirectoryFor root pathS bS = true →
        validateAndTransferNode root s d mode = .error .rootTransfer)
    ∧ (∀ t : FsNode, t.isDirectory = true → containsChild t.children "" = false →
        rm t "/" = .error .notFound) := by
  refine ⟨?_, ?_, ?_⟩
  · intro t c t1 h
    cases c with
    | cp s d => rw [execCmd, cp] at h; exact vat_ok_preserves _ _ _ _ _ h
    | md p => rw [execCmd] at h; exact md_ok_preserves _ _ _ h
    | mf p => rw [execCmd] at h; exact mf_ok_preserves _ _ _ h
    | mv s d => rw [execCmd, mv] at h; exact vat_ok_preserves _ _ _ _ _ h
    | rm p => rw [execCmd] at h; exact rm_ok_preserves _ _ _ h
  · intro root s d mode pathS bS tS hInfo hRoot
    rw [validateAndTransferNode, hInfo]
    simp only [hRoot, if_true]
  · intro t hdir hempty
    have hnorm : normalizePath "/" = "/" := rfl
    have hinfo : getNodePathInfo "/" NodeType.Invalid
        = { path := "/", basename := "", type := NodeType.Directory } := rfl
    have hfind : findNodeByPath t "/" = .ok t := by
      rw [findNodeByPath]
      have hsegs : segsOf "/" = [] := rfl
      rw [hsegs, resolveSegs]
      simp [hdir]
    rw [rm, hnorm, hinfo]
    simp only [hfind, hempty, Bool.false_eq_true, if_false]

/-- Claim C9, counterexample: `md /` creates an empty-named child of the
root (a reachable state), and in that state `rm /` succeeds and mutates the
tree — contradicting the claim that `rm /` always fails without mutating
(the root node itself does survive). -/
theorem C9_counterexample_rm_root_after_md_root :
    md (FsNode.mk "/" true []) "/"
        = .ok (FsNode.mk "/" true [("", FsNode.mk "" true [])]) ∧
      rm (FsNode.mk "/" true [("", FsNode.mk "" true [])]) "/"
        = .ok (FsNode.mk "/" true []) :=
  ⟨rfl, rfl⟩

/-- Claim C9, witness instantiation: a root-source transfer fails with the
root-transfer error, and `rm /` on a root without empty-named children fails
with `NotFound`. -/
theorem C9_root_invariants_witness :
    validateAndTransferNode (FsNode.mk "/" true [("a", FsNode.mk "a" true [])])
        "/" "/a" .Move = .error .rootTransfer ∧
      rm (FsNode.mk "/" true [("a", FsNode.mk "a" true [])]) "/"
        = .error .notFound :=
  ⟨C9_root_invariants.2.1 (FsNode.mk "/" true [("a", FsNode.mk "a" true [])])
      "/" "/a" .Move "/" "" .Directory (by rfl) (by rfl),
    C9_root_invariants.2.2 (FsNode.mk "/" true [("a", FsNode.mk "a" true [])])
      (by rfl) (by rfl)⟩

/-! ### Claim C10: every children entry's key equals the stored `name` -/

theorem nodeWF_rename (n : FsNode) (e : String) (h : nodeWF n = true) :
    (renameNode n e).name = e ∧ nodeWF (renameNode n e) = true := by
  obtain ⟨nm, d, cs⟩ := n
  exact ⟨rfl, h⟩

theorem nodeWF_insertIntoAt (t : FsNode) (loc : List String) (key : String)
    (v : FsNode) (ht : nodeWF t = true) (hv : v.name = key)
    (hwf : nodeWF v = true) : nodeWF (insertIntoAt t loc key v) = true := by
  refine (nodeWF_modifyAt loc _ ?_ t ht).2
  intro n hn
  refine ⟨rfl, ?_⟩
  rw [nodeWF_def] at hn ⊢
  exact childrenWF_insert n.children key v hn hv hwf

theorem nodeWF_eraseAt (t : FsNode) (loc : List String) (key : String)
    (ht : nodeWF t = true) : nodeWF (eraseAt t loc key) = true := by
  refine (nodeWF_modifyAt loc _ ?_ t ht).2
  intro n hn
  refine ⟨rfl, ?_⟩
  rw [nodeWF_def] at hn ⊢
  exact childrenWF_erase n.children key hn

theorem nodeWF_transferNode (root parentS : FsNode) (locS : List String)
    (parentD : FsNode) (locD : List String) (bS bD : String) (ign : Bool)
    (mode : NodeTransferMode) (t1 : FsNode) (hroot : nodeWF root = true)
    (hpS : nodeWF parentS = true)
    (h : transferNode root parentS locS parentD locD bS bD ign mode = .ok t1) :
    nodeWF t1 = true := by
  rw [transferNode] at h
  generalize heff : (if bD.isEmpty then bS else bD) = eff at h
  split at h
  · cases h
  · split at h
    · split at h
      · cases h
      · rename_i srcNode heq
        obtain ⟨hname, hwfS⟩ :=
          childrenWF_lookup parentS.children bS srcNode
            (by rw [nodeWF_def] at hpS; exact hpS) heq
        cases mode with
        | Move =>
            cases h
            refine nodeWF_eraseAt _ _ _ ?_
            exact nodeWF_insertIntoAt root locD eff _ hroot
              (nodeWF_rename srcNode eff hwfS).1 (nodeWF_rename srcNode eff hwfS).2
        | Copy =>
            cases h
            have hcn : (copyNode srcNode eff).name = eff := by
              rw [copyNode_eq, FsNode.name_mk, ← heff]
              cases hbd : bD.isEmpty
              · simp [hbd]
              · cases hbs : bS.isEmpty
                · simp [hbd, hbs]
                · simp [hbd, hbs, hname]
            have hcw : nodeWF (copyNode srcNode eff) = true := by
              rw [copyNode_eq, nodeWF_def, FsNode.children_mk, ← nodeWF_def]
              exact hwfS
            exact nodeWF_insertIntoAt root locD eff _ hroot hcn hcw
    · split at h
      · cases h; exact hroot
      · cases h

theorem nodeWF_vat (root : FsNode) (s d : String) (mode : NodeTransferMode)
    (t1 : FsNode) (hroot : nodeWF root = true)
    (h : validateAndTransferNode root s d mode = .ok t1) : nodeWF t1 = true := by
  rw [validateAndTransferNode] at h
  generalize getNodePathInfo (normalizePath s) NodeType.Invalid = iS at h
  generalize getNodePathInfo (normalizePath d) NodeType.Invalid = iD at h
  generalize normalizePath s = ns at h
  generalize normalizePath d = nd at h
  generalize (if isRootDirectoryFor root iD.path iD.basename then iS.basename
    else iD.basename) = nb at h
  generalize isRootDirectoryFor root iD.path iD.basename = dR at h
  split at h
  · cases h
  split at h
  · cases h; exact hroot
  split at h
  · cases h
  split at h
  · cases h
  rename_i parentS hfS
  have hpS : nodeWF parentS = true := nodeWF_find _ _ _ hroot hfS
  repeat' split at h
  all_goals try simp only [] at h
  repeat' split at h
  all_goals try cases h
  all_goals first
    | exact hroot
    | exact nodeWF_transferNode _ _ _ _ _ _ _ _ _ _ hroot hpS h

theorem nodeWF_md (root : FsNode) (p : String) (t1 : FsNode)
    (hroot : nodeWF root = true) (h : md root p = .ok t1) : nodeWF t1 = true := by
  rw [md] at h
  split at h
  · cases h
  · cases h
    exact nodeWF_insertIntoAt _ _ _ _ hroot rfl rfl

theorem nodeWF_mf (root : FsNode) (p : String) (t1 : FsNode)
    (hroot : nodeWF root = true) (h : mf root p = .ok t1) : nodeWF t1 = true := by
  rw [mf] at h
  split at h
  · cases h
  · split at h
    · cases h; exact hroot
    · cases h
      exact nodeWF_insertIntoAt _ _ _ _ hroot rfl rfl

theorem nodeWF_rm (root : FsNode) (p : String) (t1 : FsNode)
    (hroot : nodeWF root = true) (h : rm root p = .ok t1) : nodeWF t1 = true := by
  rw [rm] at h
  split at h
  · cases h
  · split at h
    · cases h; exact nodeWF_eraseAt _ _ _ hroot
    · cases h

theorem nodeWF_exec (t : FsNode) (c : Cmd) (t1 : FsNode)
    (hroot : nodeWF t = true) (h : execCmd t c = .ok t1) : nodeWF t1 = true := by
  cases c with
  | cp s d => rw [execCmd, cp] at h; exact nodeWF_vat _ _ _ _ _ hroot h
  | md p => rw [execCmd] at h; exact nodeWF_md _ _ _ hroot h
  | mf p => rw [execCmd] at h; exact nodeWF_mf _ _ _ hroot h
  | mv s d => rw [execCmd, mv] at h; exact nodeWF_vat _ _ _ _ _ hroot h
  | rm p => rw [execCmd] at h; exact nodeWF_rm _ _ _ hroot h

theorem nodeWF_run (cs : List Cmd) : ∀ (t : FsNode), nodeWF t = true →
    nodeWF (runCmds t cs).1 = true := by
  induction cs with
  | nil => intro t ht; exact ht
  | cons c rest ih =>
      intro t ht
      rw [runCmds]
      cases hx : execCmd t c with
      | error e => exact ht
      | ok t1 => exact ih t1 (nodeWF_exec t c t1 ht hx)

/-- **C10**: the key of every entry in a directory's children map equals the
`name` stored in the owned child node — this holds in the initial tree (a
bare root), it is preserved by every single operation (`md`, `mf`, `rm`,
`cp`, `mv`) that succeeds, and therefore it holds in every tree state
reachable by running a command sequence from the initial tree: creation
inserts nodes under their own names, a move renames the transferred node to
the effective insertion key, a copy clones descendants under their unchanged
names and stores the clone under its effective name. -/
theorem C10_children_key_equals_stored_name :
    nodeWF (FsNode.mk "/" true []) = true
    ∧ (∀ (t : FsNode) (c : Cmd) (t1 : FsNode),
        nodeWF t = true → execCmd t c = .ok t1 → nodeWF t1 = true)
    ∧ (∀ cs : List Cmd, nodeWF (runCmds (FsNode.mk "/" true []) cs).1 = true) :=
  ⟨rfl, nodeWF_exec, fun cs => nodeWF_run cs (FsNode.mk "/" true []) rfl⟩

/-- Claim C10, witness instantiation: the invariant transported across a
concrete `md` step and across a concrete command sequence ending in a
deep-copy. -/
theorem C10_children_key_witness :
    nodeWF (FsNode.mk "/" true [("d1", FsNode.mk "d1" true [])]) = true
    ∧ nodeWF (runCmds (FsNode.mk "/" true [])
        [Cmd.md "/d1", Cmd.mf "/d1/f.txt", Cmd.cp "/d1" "/d2"]).1 = true :=
  ⟨C10_children_key_equals_stored_name.2.1 (FsNode.mk "/" true []) (Cmd.md "/d1")
      (FsNode.mk "/" true [("d1", FsNode.mk "d1" true [])]) (by rfl) (by rfl),
    C10_children_key_equals_stored_name.2.2
      [Cmd.md "/d1", Cmd.mf "/d1/f.txt", Cmd.cp "/d1" "/d2"]⟩

end FME
